import Mathlib

/-!
# quick-router: route table, route resolution and nested view rendering

A shallow embedding of `src/index.js` (class `QuickRouter` and the `router-view`
placeholder registered by `QuickRouter.install`) together with the example route
configuration of `example/src/router/index.js`.

* JavaScript objects that the code only reads are Lean values; the router instance
  (`this`) is the structure `QuickRouter`, threaded through every method.
* `forEach` loops are folds in the order of the iterated array.
* The route table `routesMap` is an object used as a map: its properties are kept in
  creation order and `objectKeys` enumerates them the way `Object.keys` does.
* `match` is imported from the package path-to-regexp; the methods take it as a
  parameter of type `Matcher`.
-/

set_option autoImplicit false

/-! ## Data model -/

/-- A component reference held by a route definition (an opaque, truthy value of the
host framework, identified here by its name). -/
abbrev Component := String

/-- A route definition as written by the user: `{ path, name, component, children }`.
An absent `name` or `component` is `none`; an absent `children` is the empty list
(`_recRoutes` treats both the same way). -/
inductive RouteDef where
  | mk (path : String) (name : Option String) (component : Option Component)
      (children : List RouteDef)

namespace RouteDef

/-- Field `path`. -/
def path : RouteDef → String
  | mk p _ _ _ => p

/-- Field `name`. -/
def name : RouteDef → Option String
  | mk _ n _ _ => n

/-- Field `component`. -/
def component : RouteDef → Option Component
  | mk _ _ c _ => c

/-- Field `children`. -/
def children : RouteDef → List RouteDef
  | mk _ _ _ cs => cs

end RouteDef

/-- A route record: the definition object once `_recRoutes` has tagged it with its
`parent`.  A top-level definition is never given a `parent` (constructor `root`); a
child carries the record of its enclosing definition (constructor `child`). -/
inductive RouteRecord where
  | root (route : RouteDef)
  | child (route : RouteDef) (parent : RouteRecord)

namespace RouteRecord

/-- The definition the record was made from. -/
def route : RouteRecord → RouteDef
  | root d => d
  | child d _ => d

/-- Field `parent` (`none` is JavaScript `undefined`). -/
def parent : RouteRecord → Option RouteRecord
  | root _ => none
  | child _ p => some p

/-- Field `path`: the record's own path segment. -/
def path (r : RouteRecord) : String := r.route.path

/-- Field `component`. -/
def component (r : RouteRecord) : Option Component := r.route.component

end RouteRecord

/-- The route table `routesMap`: the own properties of the object, in creation order. -/
abbrev RoutesMap := List (String × RouteRecord)

/-- Property assignment `map[key] = value`: an existing property keeps its place and
takes the new value, a new property is created after all the others. -/
def setProp : RoutesMap → String → RouteRecord → RoutesMap
  | [], key, value => [(key, value)]
  | (k, v) :: rest, key, value =>
    if k = key then (k, value) :: rest else (k, v) :: setProp rest key value

/-- Property read `map[key]` (`none` is `undefined`). -/
def getProp : RoutesMap → String → Option RouteRecord
  | [], _ => none
  | (k, v) :: rest, key => if k = key then some v else getProp rest key

/-- Value of a string of decimal digits, most significant digit first. -/
def decimalValue : List Char → Nat → Option Nat
  | [], acc => some acc
  | c :: cs, acc =>
    if c.isDigit then decimalValue cs (acc * 10 + (c.toNat - 48)) else none

/-- The array index a property key denotes, if any: the key is the canonical decimal
numeral of an integer below `2^32 - 1`. -/
def arrayIndex? (key : String) : Option Nat :=
  match key.data with
  | [] => none
  | [c] => if c.isDigit then some (c.toNat - 48) else none
  | c :: cs =>
    if c = '0' then none
    else
      match decimalValue (c :: cs) 0 with
      | some n => if n < 4294967295 then some n else none
      | none => none

/-- Insertion of an index key into a list sorted by ascending index. -/
def insertIndexKey (k : Nat × String) : List (Nat × String) → List (Nat × String)
  | [] => [k]
  | h :: t => if k.1 ≤ h.1 then k :: h :: t else h :: insertIndexKey k t

/-- Index keys in ascending numeric order. -/
def sortIndexKeys : List (Nat × String) → List (Nat × String)
  | [] => []
  | k :: ks => insertIndexKey k (sortIndexKeys ks)

/-- The order of `Object.keys(map)`: array-index keys first, in ascending numeric
order, then every other key in creation order. -/
def objectKeys (map : RoutesMap) : List String :=
  (sortIndexKeys (map.filterMap fun kv => (arrayIndex? kv.1).map fun n => (n, kv.1))).map
      Prod.snd ++
    (map.filter fun kv => (arrayIndex? kv.1).isNone).map Prod.fst

/-! ## The router -/

/-- The result object of a successful `match(pattern)(path)`. -/
structure MatchResult where
  path : String
  index : Nat
  params : List (String × String)
deriving DecidableEq

/-- The function `match` of path-to-regexp, curried as in the source:
`m pattern path` is `match(pattern)(path)`, with `none` for the result `false`. -/
abbrev Matcher := String → String → Option MatchResult

/-- The current route: the match result object, to which `createRoute` adds
`realPath` and `matched`. -/
structure Route where
  path : String
  index : Nat
  params : List (String × String)
  realPath : String
  matched : List RouteRecord

/-- The constructor's `options`. -/
structure Options where
  mode : String
  base : String
  routes : List RouteDef

/-- The part of `window.location` the router reads. -/
structure Location where
  pathname : String
  hash : String
deriving DecidableEq

/-- The browser window. -/
structure Window where
  location : Location
deriving DecidableEq

/-- A run-time error thrown by the JavaScript engine. -/
inductive JSError where
  | typeError (message : String)
deriving DecidableEq

/-- The router instance.  `route = none` is the empty object `Object.create(null)`
the constructor starts with: it has no `params`, `realPath` or `matched`. -/
structure QuickRouter where
  options : Options
  routesMap : RoutesMap
  route : Option Route
  depth : Nat
  path : String

namespace QuickRouter

mutual
/-- Method `_recRoutes(route, path)`.  `item` is the definition object and `route` the
same object seen as a record (with its `parent`); the body is the `forEach` over
`route.children`, which does nothing when there are no children. -/
def _recRoutes : RouteDef → RouteRecord → String → RoutesMap → RoutesMap
  | .mk _ _ _ children, route, path, map => recRoutesEach children route path map
/-- The `forEach` callback of `_recRoutes`, over the remaining children. -/
def recRoutesEach : List RouteDef → RouteRecord → String → RoutesMap → RoutesMap
  | [], _, _, map => map
  | item :: rest, route, path, map =>
    let record := RouteRecord.child item route
    let fullPath := path ++ "/" ++ item.path
    recRoutesEach rest route path (_recRoutes item record fullPath (setProp map fullPath record))
end

/-- The `forEach` of `loadRoutes`, over the remaining top-level definitions. -/
def loadRoutesEach : List RouteDef → RoutesMap → RoutesMap
  | [], map => map
  | route :: rest, map =>
    let path := route.path
    let record := RouteRecord.root route
    loadRoutesEach rest (_recRoutes route record path (setProp map path record))

/-- Method `loadRoutes()`, run by the constructor on the empty `routesMap`. -/
def loadRoutes (routes : List RouteDef) : RoutesMap :=
  loadRoutesEach routes []

/-- The `while` loop of `_collectMatcted`: `record` is put in front of `ret`, then the
loop goes on with `record.parent`. -/
def collectLoop : RouteRecord → List RouteRecord → List RouteRecord
  | .root d, ret => .root d :: ret
  | .child d p, ret => collectLoop p (.child d p :: ret)

/-- Method `_collectMatcted(record)`. -/
def _collectMatcted : Option RouteRecord → List RouteRecord
  | none => []
  | some record => collectLoop record []

/-- One call of the `forEach` callback of `createRoute`. -/
def createRouteStep (m : Matcher) (s : QuickRouter) (path : String) : QuickRouter :=
  if path ≠ "" then
    match m path s.path with
    | some matched =>
      { s with
        route := some
          { path := matched.path
            index := matched.index
            params := matched.params
            realPath := path
            matched := _collectMatcted (getProp s.routesMap path) } }
    | none => s
  else s

/-- Method `createRoute()`. -/
def createRoute (m : Matcher) (s : QuickRouter) : QuickRouter :=
  (objectKeys s.routesMap).foldl (createRouteStep m) s

/-- Method `handleRoutingEvent()`. -/
def handleRoutingEvent (m : Matcher) (s : QuickRouter) : QuickRouter :=
  createRoute m { s with depth := 0 }

/-- Method `listen()`: the event types a listener is registered for, in order. -/
def listen (options : Options) : List String :=
  [if options.mode = "history" then "popstate" else "hashchange", "load"]

/-- Method `getPath()`.  In hash mode the code reads `window.localtion.hash`; a
window has no property `localtion`, so the read of `.hash` throws. -/
def getPath (options : Options) (window : Window) : Except JSError String :=
  if options.mode = "hash" then
    .error (.typeError "window.localtion is undefined")
  else .ok window.location.pathname

/-- The class constructor `new QuickRouter(options)`: the table is loaded, the route
is the empty object, the depth is 0, `listen()` registers the handlers, the path is
`getPath() || '/'`, and `createRoute()` is called once. -/
def constructor (m : Matcher) (options : Options) (window : Window) : Except JSError QuickRouter :=
  match getPath options window with
  | .error e => .error e
  | .ok p =>
    .ok (createRoute m
      { options := options
        routesMap := loadRoutes options.routes
        route := none
        depth := 0
        path := if p = "" then "/" else p })

/-- The `render` function of the `router-view` placeholder: the rendered component
(`none` for the empty node `h()`) and the router afterwards. -/
def routerView (s : QuickRouter) : Except JSError (Option Component × QuickRouter) :=
  match s.route with
  | none => .error (.typeError "route.matched is undefined")
  | some route =>
    match route.matched[s.depth]? with
    | some comp =>
      match comp.component with
      | some c => .ok (some c, { s with depth := s.depth + 1 })
      | none => .ok (none, s)
    | none => .ok (none, s)

/-- A pass of `k` placeholder renders, one after another. -/
def renderViews : Nat → QuickRouter → Except JSError (List (Option Component) × QuickRouter)
  | 0, s => .ok ([], s)
  | k + 1, s =>
    match routerView s with
    | .error e => .error e
    | .ok (c, s1) =>
      match renderViews k s1 with
      | .error e => .error e
      | .ok (cs, s2) => .ok (c :: cs, s2)

/-! ## The path matcher and the example configuration -/

/-- Split of a path at every `/`. -/
def splitSlash : List Char → List (List Char)
  | [] => [[]]
  | c :: cs =>
    if c = '/' then [] :: splitSlash cs
    else
      match splitSlash cs with
      | [] => [[c]]
      | seg :: segs => (c :: seg) :: segs

/-- A character that ends a path segment. -/
def isDelimiter (c : Char) : Bool := c = '/' || c = '#' || c = '?'

/-- Segment-wise match of a pattern against a path: a segment `:name` of the pattern
takes one non-empty segment free of delimiters as the value of `name`, any other
segment of the pattern is static and has to be equal to the segment of the path. -/
def matchSegments : List (List Char) → List (List Char) → Option (List (String × String))
  | [], [] => some []
  | [], _ :: _ => none
  | _ :: _, [] => none
  | pat :: pats, seg :: segs =>
    match pat with
    | ':' :: name =>
      if seg ≠ [] ∧ seg.all (fun c => !isDelimiter c) then
        (matchSegments pats segs).map fun params => (String.mk name, String.mk seg) :: params
      else none
    | _ => if pat = seg then matchSegments pats segs else none

/-- Modelled from the spec: the path-pattern matcher, `match` of the package
path-to-regexp, which is imported by `src/index.js` and is not part of the
repository.  The model covers what the spec names: patterns made of static segments
and named parameters (`:id`), matched against the whole path; the result carries the
matched path, its index and the parameter values. -/
def pathMatch : Matcher := fun pattern path =>
  (matchSegments (splitSlash pattern.data) (splitSlash path.data)).map fun params =>
    { path := path, index := 0, params := params }

/-- The route definition `Home` of `example/src/router/index.js`. -/
def homeDef : RouteDef := .mk "/" (some "Home") (some "Home") []

/-- The child definition `detail/:id` of the example. -/
def detailDef : RouteDef := .mk "detail/:id" none (some "Detail") []

/-- The route definition `/about` of the example, with its child. -/
def aboutDef : RouteDef := .mk "/about" none (some "About") [detailDef]

/-- The array `routes` of `example/src/router/index.js`. -/
def exampleRoutes : List RouteDef := [homeDef, aboutDef]

/-- The options of the example router (`base` is `process.env.BASE_URL`). -/
def exampleOptions (base : String) : Options :=
  { mode := "history", base := base, routes := exampleRoutes }

/-- The record of `/about`. -/
def aboutRecord : RouteRecord := .root aboutDef

/-- The record of `detail/:id`, whose parent is the record of `/about`. -/
def detailRecord : RouteRecord := .child detailDef aboutRecord

/-- A window whose location has the given pathname. -/
def windowAt (pathname : String) : Window :=
  { location := { pathname := pathname, hash := "" } }

end QuickRouter

/-! ## Notions used to state the properties -/

namespace RouteRecord

/-- Nesting level of a record: the number of definitions that enclose it. -/
def level : RouteRecord → Nat
  | root _ => 0
  | child _ p => p.level + 1

/-- The top-level definition above a record (the record's own definition when it is
top-level). -/
def top : RouteRecord → RouteDef
  | root d => d
  | child _ p => p.top

/-- The ancestor chain of a record, from the top-level record down to the record
itself. -/
def ancestors : RouteRecord → List RouteRecord
  | root d => [root d]
  | child d p => p.ancestors ++ [child d p]

/-- The path segments of the ancestors of a record, from the top-level definition down
to the record itself, joined by `/`. -/
def fullPath (r : RouteRecord) : String :=
  "/".intercalate (r.ancestors.map RouteRecord.path)

/-- A record is a node of the route tree `routes`: its definition is a child of its
parent's definition, and so on up to a top-level record, whose definition is one of
`routes`. -/
def InTree (routes : List RouteDef) : RouteRecord → Prop
  | root d => d ∈ routes
  | child d p => d ∈ p.route.children ∧ p.InTree routes

end RouteRecord

namespace QuickRouter

mutual
/-- The nodes below a definition, each with its parent link, in depth-first order. -/
def descendants : RouteDef → RouteRecord → List RouteRecord
  | .mk _ _ _ children, record => descendantsEach children record
/-- The nodes of a list of sibling definitions and below, in depth-first order. -/
def descendantsEach : List RouteDef → RouteRecord → List RouteRecord
  | [], _ => []
  | item :: rest, parent =>
    (RouteRecord.child item parent :: descendants item (RouteRecord.child item parent)) ++
      descendantsEach rest parent
end

/-- The nodes of a route tree: every top-level definition followed by the nodes below
it, in depth-first order. -/
def treeNodes : List RouteDef → List RouteRecord
  | [] => []
  | d :: ds => (RouteRecord.root d :: descendants d (RouteRecord.root d)) ++ treeNodes ds

mutual
/-- Number of nodes of a definition: itself and the nodes below it. -/
def countNodes : RouteDef → Nat
  | .mk _ _ _ children => 1 + countNodesEach children
/-- Number of nodes of a list of definitions. -/
def countNodesEach : List RouteDef → Nat
  | [] => 0
  | d :: ds => countNodes d + countNodesEach ds
end

/-- The link between consecutive elements of a root-first chain: the later element
has the earlier one as its `parent`. -/
def ParentLink (a b : RouteRecord) : Prop := b.parent = some a

/-- The route object `createRoute` builds from the result of matching the pattern
`pattern`, for the table `map`. -/
def routeOf (map : RoutesMap) (pattern : String) (r : MatchResult) : Route :=
  { path := r.path
    index := r.index
    params := r.params
    realPath := pattern
    matched := _collectMatcted (getProp map pattern) }

/-- The non-empty patterns among `keys` that match `path`, each with its match
result, in the order of `keys`. -/
def matchesOf (m : Matcher) (path : String) (keys : List String) :
    List (String × MatchResult) :=
  keys.filterMap fun k => if k = "" then none else (m k path).map fun r => (k, r)

end QuickRouter

/-! ## Concrete configurations -/

namespace QuickRouter

/-- The router as the constructor leaves it just before its call of `createRoute`:
the table is loaded, the route is the empty object, the depth is 0. -/
def initial (options : Options) (path : String) : QuickRouter :=
  { options := options
    routesMap := loadRoutes options.routes
    route := none
    depth := 0
    path := path }

/-- A static route `/about` declared before a parameter route `/:page`. -/
def precedenceRoutes : List RouteDef :=
  [.mk "/about" none (some "About") [], .mk "/:page" none (some "Page") []]

/-- The router for `precedenceRoutes` at the path `/about`, before resolution. -/
def precedenceRouter : QuickRouter :=
  initial { mode := "history", base := "", routes := precedenceRoutes } "/about"

/-- Two top-level definitions with the same path. -/
def collidingRoutes : List RouteDef :=
  [.mk "/a" none (some "First") [], .mk "/a" none (some "Second") []]

/-- The example router at the path `/about/detail/42`, before resolution. -/
def detailRouter : QuickRouter := initial (exampleOptions "") "/about/detail/42"

/-- The example router at the path `/`, before resolution. -/
def homeRouter : QuickRouter := initial (exampleOptions "") "/"

/-- The example router once its constructor has resolved `/about/detail/42`. -/
def detailResolved : QuickRouter := createRoute pathMatch detailRouter

/-- The route the example router holds for `/about/detail/42`. -/
def detailRoute : Route :=
  { path := "/about/detail/42"
    index := 0
    params := [("id", "42")]
    realPath := "/about/detail/:id"
    matched := [aboutRecord, detailRecord] }

/-- The example router for `/about/detail/42` after two placeholder renders. -/
def detailRendered : QuickRouter := { detailResolved with depth := 2 }

/-- The example router once its constructor has resolved `/`. -/
def homeResolved : QuickRouter := createRoute pathMatch homeRouter

/-- The example router resolved at `/` and rendered once, whose path is then
`/nowhere`, a path no pattern of the example matches. -/
def strayRouter : QuickRouter :=
  { homeResolved with depth := 1, path := "/nowhere" }

end QuickRouter

/-! ## The install hook and sequences of events -/

/-- The options object of a global mixin, by the lifecycle hooks it defines. -/
structure Mixin where
  hooks : List String
deriving DecidableEq

/-- The options object of a globally registered component. -/
structure ComponentOptions where
  functional : Bool
deriving DecidableEq

/-- The host framework constructor `Vue`, as far as `install` acts on it: its identity
and the calls of `Vue.mixin` and `Vue.component` made on it so far, oldest first. -/
structure Vue where
  cid : Nat
  mixins : List Mixin
  components : List (String × ComponentOptions)
deriving DecidableEq

/-- The state `install` keeps outside the framework: the static flag
`QuickRouter.installed` (`false` when it is still undefined) and the module variable
`_Vue` (the identity of the saved constructor). -/
structure PluginState where
  installed : Bool
  _Vue : Option Nat
deriving DecidableEq

namespace QuickRouter

/-- The global mixin of `install`: it defines the hook `beforeCreate`. -/
def routerMixin : Mixin := { hooks := ["beforeCreate"] }

/-- The static method `QuickRouter.install(Vue)`. -/
def install (p : PluginState) (vue : Vue) : PluginState × Vue :=
  if p.installed then (p, vue)
  else
    ({ installed := true, _Vue := some vue.cid },
      { vue with
        mixins := vue.mixins ++ [routerMixin]
        components := vue.components ++
          [("router-link", { functional := true }), ("router-view", { functional := true })] })

/-- What happens to a constructed router: a view placeholder is rendered, or a
navigation event calls `handleRoutingEvent`. -/
inductive Step where
  | render
  | navigate
deriving DecidableEq

/-- The router after one step. -/
def step (m : Matcher) (s : QuickRouter) : Step → Except JSError QuickRouter
  | .render =>
    match routerView s with
    | .ok (_, s') => .ok s'
    | .error e => .error e
  | .navigate => .ok (handleRoutingEvent m s)

/-- The router after a sequence of steps. -/
def run (m : Matcher) : List Step → QuickRouter → Except JSError QuickRouter
  | [], s => .ok s
  | a :: rest, s =>
    match step m s a with
    | .ok s' => run m rest s'
    | .error e => .error e

/-- The depth lies within the matched chain and every record below it carries a
component. -/
def DepthInvariant (s : QuickRouter) : Prop :=
  ∃ r : Route, s.route = some r ∧ s.depth ≤ r.matched.length ∧
    ∀ i, i < s.depth → ∃ record c, r.matched[i]? = some record ∧ record.component = some c

/-- A framework on which nothing has been registered. -/
def freshVue : Vue := { cid := 0, mixins := [], components := [] }

/-- The plugin state before any call of `install`. -/
def freshPlugin : PluginState := { installed := false, _Vue := none }

/-- The example routes in hash mode. -/
def hashOptions : Options := { mode := "hash", base := "", routes := exampleRoutes }

/-- The options of a router without routes. -/
def emptyOptions : Options := { mode := "history", base := "", routes := [] }

/-- Three nodes, the first and the last under the same full path `/a/b`. -/
def overwriteRoutes : List RouteDef :=
  [.mk "/a" none (some "A") [.mk "b" none (some "Child") []],
    .mk "/a/b" none (some "Top") []]

end QuickRouter

/-! ## Route resolution -/

namespace QuickRouter

theorem createRouteStep_routesMap (m : Matcher) (s : QuickRouter) (k : String) :
    (createRouteStep m s k).routesMap = s.routesMap := by
  unfold createRouteStep
  split
  · split <;> rfl
  · rfl

theorem createRouteStep_path (m : Matcher) (s : QuickRouter) (k : String) :
    (createRouteStep m s k).path = s.path := by
  unfold createRouteStep
  split
  · split <;> rfl
  · rfl

/-- What the loop of `createRoute` leaves behind, in terms of the matches among the
keys it has visited. -/
theorem foldl_createRouteStep (m : Matcher) (s : QuickRouter) (keys : List String) :
    keys.foldl (createRouteStep m) s =
      match (matchesOf m s.path keys).getLast? with
      | none => s
      | some (p, r) => { s with route := some (routeOf s.routesMap p r) } := by
  induction keys using List.reverseRecOn with
  | nil => simp [matchesOf]
  | append_singleton ks k ih =>
    rw [List.foldl_append, ih]
    simp only [List.foldl_cons, List.foldl_nil, matchesOf, List.filterMap_append,
      List.filterMap_cons, List.filterMap_nil]
    by_cases hk : k = ""
    · subst hk
      simp [createRouteStep]
    · cases hm : m k s.path with
      | none =>
        have hstep : ∀ t : QuickRouter, t.path = s.path → createRouteStep m t k = t := by
          intro t ht
          simp [createRouteStep, hk, ht, hm]
        simp only [hk, if_false, Option.map_none', List.append_nil]
        apply hstep
        cases (List.filterMap (fun k => if k = "" then none
          else Option.map (fun r => (k, r)) (m k s.path)) ks).getLast? with
        | none => rfl
        | some pr => rfl
      | some r =>
        simp only [hk, if_false, Option.map_some', List.getLast?_concat]
        cases (List.filterMap (fun k => if k = "" then none
          else Option.map (fun r => (k, r)) (m k s.path)) ks).getLast? with
        | none => simp [createRouteStep, hk, hm, routeOf]
        | some pr => simp [createRouteStep, hk, hm, routeOf]

theorem createRoute_eq (m : Matcher) (s : QuickRouter) :
    createRoute m s =
      match (matchesOf m s.path (objectKeys s.routesMap)).getLast? with
      | none => s
      | some (p, r) => { s with route := some (routeOf s.routesMap p r) } :=
  foldl_createRouteStep m s _

end QuickRouter

/-! ## The route table as an object -/

theorem insertIndexKey_perm (k : Nat × String) (l : List (Nat × String)) :
    (insertIndexKey k l).Perm (k :: l) := by
  induction l with
  | nil => exact List.Perm.refl _
  | cons h t ih =>
    unfold insertIndexKey
    split
    · exact List.Perm.refl _
    · exact (List.Perm.cons h ih).trans (List.Perm.swap k h t)

theorem sortIndexKeys_perm (l : List (Nat × String)) : (sortIndexKeys l).Perm l := by
  induction l with
  | nil => exact List.Perm.refl _
  | cons k ks ih =>
    exact (insertIndexKey_perm k (sortIndexKeys ks)).trans (List.Perm.cons k ih)

/-- `Object.keys` lists exactly the keys of the table. -/
theorem mem_objectKeys (map : RoutesMap) (k : String) :
    k ∈ objectKeys map ↔ k ∈ map.map Prod.fst := by
  unfold objectKeys
  rw [List.mem_append, List.mem_map, List.mem_map, List.mem_map]
  constructor
  · rintro (⟨⟨n, k'⟩, hmem, rfl⟩ | ⟨kv, hmem, rfl⟩)
    · rw [(sortIndexKeys_perm _).mem_iff, List.mem_filterMap] at hmem
      obtain ⟨kv, hkv, heq⟩ := hmem
      cases hidx : arrayIndex? kv.1 with
      | none => simp [hidx] at heq
      | some i =>
        simp only [hidx, Option.map_some', Option.some.injEq, Prod.mk.injEq] at heq
        exact ⟨kv, hkv, heq.2⟩
    · exact ⟨kv, (List.mem_filter.1 hmem).1, rfl⟩
  · rintro ⟨kv, hkv, rfl⟩
    cases hidx : arrayIndex? kv.1 with
    | none =>
      right
      exact ⟨kv, List.mem_filter.2 ⟨hkv, by simp [hidx]⟩, rfl⟩
    | some i =>
      left
      refine ⟨(i, kv.1), ?_, rfl⟩
      rw [(sortIndexKeys_perm _).mem_iff, List.mem_filterMap]
      exact ⟨kv, hkv, by simp [hidx]⟩

/-- Without array-index keys, `Object.keys` follows creation order. -/
theorem objectKeys_eq_creation_order (map : RoutesMap)
    (h : ∀ kv ∈ map, arrayIndex? kv.1 = none) : objectKeys map = map.map Prod.fst := by
  unfold objectKeys
  have h1 : (map.filterMap fun kv => (arrayIndex? kv.1).map fun n => (n, kv.1)) = [] := by
    rw [List.filterMap_eq_nil_iff]
    intro kv hkv
    simp [h kv hkv]
  have h2 : (map.filter fun kv => (arrayIndex? kv.1).isNone) = map := by
    rw [List.filter_eq_self]
    intro kv hkv
    simp [h kv hkv]
  rw [h1, h2]
  rfl

theorem getProp_isSome_of_mem (map : RoutesMap) (k : String) (h : k ∈ map.map Prod.fst) :
    ∃ record, getProp map k = some record := by
  induction map with
  | nil => simp at h
  | cons kv rest ih =>
    obtain ⟨k', v⟩ := kv
    unfold getProp
    by_cases hk : k' = k
    · exact ⟨v, by simp [hk]⟩
    · simp only [List.map_cons, List.mem_cons] at h
      rcases h with h | h
      · exact absurd h.symm hk
      · obtain ⟨record, hrec⟩ := ih h
        exact ⟨record, by simp [hk, hrec]⟩

/-! ## Ancestor chains -/

namespace RouteRecord

theorem ancestors_ne_nil (r : RouteRecord) : r.ancestors ≠ [] := by
  cases r <;> simp [ancestors]

theorem ancestors_getLast? (r : RouteRecord) : r.ancestors.getLast? = some r := by
  cases r with
  | root d => rfl
  | child d p => simp [ancestors, List.getLast?_concat]

theorem ancestors_head? (r : RouteRecord) : r.ancestors.head? = some (root r.top) := by
  induction r with
  | root d => rfl
  | child d p ih =>
    simp only [ancestors, top, List.head?_append, ih, Option.or_some]

theorem ancestors_length (r : RouteRecord) : r.ancestors.length = r.level + 1 := by
  induction r with
  | root d => rfl
  | child d p ih => simp [ancestors, level, ih]

theorem ancestors_chain (r : RouteRecord) :
    List.Chain' QuickRouter.ParentLink r.ancestors := by
  induction r with
  | root d => simp [ancestors]
  | child d p ih =>
    simp only [ancestors]
    rw [List.chain'_append]
    refine ⟨ih, List.chain'_singleton _, ?_⟩
    intro x hx y hy
    rw [ancestors_getLast?] at hx
    simp only [Option.mem_def, Option.some.injEq, List.head?_cons] at hx hy
    subst hx hy
    rfl

theorem top_mem_of_inTree (routes : List RouteDef) (r : RouteRecord) (h : r.InTree routes) :
    r.top ∈ routes := by
  induction r with
  | root d => exact h
  | child d p ih => exact ih h.2

end RouteRecord

namespace QuickRouter

theorem collectLoop_eq (record : RouteRecord) (ret : List RouteRecord) :
    collectLoop record ret = record.ancestors ++ ret := by
  induction record generalizing ret with
  | root d => rfl
  | child d p ih => simp [collectLoop, ih, RouteRecord.ancestors]

theorem collectMatcted_some (record : RouteRecord) :
    _collectMatcted (some record) = record.ancestors := by
  simp [_collectMatcted, collectLoop_eq]

end QuickRouter

/-! ## The route table builder -/

theorem intercalate_go_concat (acc sep x : String) (l : List String) :
    String.intercalate.go acc sep (l ++ [x]) = String.intercalate.go acc sep l ++ sep ++ x := by
  induction l generalizing acc with
  | nil => rfl
  | cons a as ih => exact ih (acc ++ sep ++ a)

theorem intercalate_concat (sep x : String) (l : List String) (h : l ≠ []) :
    sep.intercalate (l ++ [x]) = sep.intercalate l ++ sep ++ x := by
  cases l with
  | nil => exact absurd rfl h
  | cons a as => exact intercalate_go_concat a sep x as

namespace RouteRecord

theorem fullPath_root (d : RouteDef) : (root d).fullPath = d.path := rfl

theorem fullPath_child (d : RouteDef) (p : RouteRecord) :
    (child d p).fullPath = p.fullPath ++ "/" ++ d.path := by
  unfold fullPath
  simp only [ancestors, List.map_append, List.map_cons, List.map_nil]
  rw [intercalate_concat]
  · rfl
  · simpa using ancestors_ne_nil p

end RouteRecord

namespace QuickRouter

mutual
theorem recRoutes_eq : ∀ (item : RouteDef) (record : RouteRecord) (map : RoutesMap),
    _recRoutes item record record.fullPath map =
      (descendants item record).foldl (fun m n => setProp m n.fullPath n) map
  | .mk _ _ _ children, record, map => by
    simp only [_recRoutes, descendants]
    exact recRoutesEach_eq children record map
theorem recRoutesEach_eq : ∀ (children : List RouteDef) (record : RouteRecord)
    (map : RoutesMap),
    recRoutesEach children record record.fullPath map =
      (descendantsEach children record).foldl (fun m n => setProp m n.fullPath n) map
  | [], _, _ => by simp [recRoutesEach, descendantsEach]
  | item :: rest, record, map => by
    simp only [recRoutesEach, descendantsEach, List.foldl_append, List.foldl_cons]
    rw [← RouteRecord.fullPath_child, recRoutes_eq item (RouteRecord.child item record),
      recRoutesEach_eq rest record]
end

theorem loadRoutesEach_eq (routes : List RouteDef) (map : RoutesMap) :
    loadRoutesEach routes map =
      (treeNodes routes).foldl (fun m n => setProp m n.fullPath n) map := by
  induction routes generalizing map with
  | nil => rfl
  | cons d ds ih =>
    simp only [loadRoutesEach, treeNodes, List.foldl_append, List.foldl_cons]
    rw [← RouteRecord.fullPath_root d, recRoutes_eq d (RouteRecord.root d), ih]

/-- The table is the result of registering the nodes of the tree one after another,
in depth-first order, each under its full path. -/
theorem loadRoutes_eq_foldl (routes : List RouteDef) :
    loadRoutes routes = (treeNodes routes).foldl (fun m n => setProp m n.fullPath n) [] :=
  loadRoutesEach_eq routes []

mutual
theorem descendants_length : ∀ (item : RouteDef) (record : RouteRecord),
    (descendants item record).length + 1 = countNodes item
  | .mk _ _ _ children, record => by
    simp only [descendants, countNodes]
    rw [descendantsEach_length children record]
    omega
theorem descendantsEach_length : ∀ (children : List RouteDef) (record : RouteRecord),
    (descendantsEach children record).length = countNodesEach children
  | [], _ => by simp [descendantsEach, countNodesEach]
  | item :: rest, record => by
    simp only [descendantsEach, countNodesEach, List.length_append, List.length_cons]
    rw [descendantsEach_length rest record,
      ← descendants_length item (RouteRecord.child item record)]
end

theorem treeNodes_length (routes : List RouteDef) :
    (treeNodes routes).length = countNodesEach routes := by
  induction routes with
  | nil => rfl
  | cons d ds ih =>
    simp only [treeNodes, countNodesEach, List.length_append, List.length_cons, ih,
      ← descendants_length d (RouteRecord.root d)]

end QuickRouter

theorem setProp_of_not_mem (map : RoutesMap) (k : String) (v : RouteRecord)
    (h : k ∉ map.map Prod.fst) : setProp map k v = map ++ [(k, v)] := by
  induction map with
  | nil => rfl
  | cons kv rest ih =>
    obtain ⟨k', v'⟩ := kv
    simp only [List.map_cons, List.mem_cons, not_or] at h
    have hk : ¬ k' = k := fun e => h.1 e.symm
    simp [setProp, hk, ih h.2]

theorem getProp_append_of_not_mem (l₁ l₂ : RoutesMap) (k : String)
    (h : k ∉ l₁.map Prod.fst) : getProp (l₁ ++ l₂) k = getProp l₂ k := by
  induction l₁ with
  | nil => rfl
  | cons kv rest ih =>
    obtain ⟨k', v'⟩ := kv
    simp only [List.map_cons, List.mem_cons, not_or] at h
    have hk : ¬ k' = k := fun e => h.1 e.symm
    simp [getProp, hk, ih h.2]

namespace QuickRouter

theorem foldl_register_of_nodup (nodes : List RouteRecord) (map : RoutesMap)
    (h : (map.map Prod.fst ++ nodes.map RouteRecord.fullPath).Nodup) :
    nodes.foldl (fun m n => setProp m n.fullPath n) map =
      map ++ nodes.map fun n => (n.fullPath, n) := by
  induction nodes generalizing map with
  | nil => simp
  | cons n ns ih =>
    have hn : n.fullPath ∉ map.map Prod.fst := by
      intro hmem
      have := (List.nodup_append.1 h).2.2
      exact this hmem (List.mem_cons_self _ _)
    simp only [List.foldl_cons, List.map_cons]
    rw [setProp_of_not_mem map _ _ hn, ih]
    · simp
    · simpa [List.map_append, List.append_assoc] using h

theorem getProp_map_fullPath (nodes : List RouteRecord) (n : RouteRecord) (hn : n ∈ nodes)
    (h : (nodes.map RouteRecord.fullPath).Nodup) :
    getProp (nodes.map fun r => (r.fullPath, r)) n.fullPath = some n := by
  induction nodes with
  | nil => simp at hn
  | cons r rs ih =>
    simp only [List.map_cons, List.nodup_cons] at h
    simp only [List.map_cons, getProp]
    rcases List.mem_cons.1 hn with rfl | hmem
    · simp
    · have hne : ¬ r.fullPath = n.fullPath := by
        intro e
        exact h.1 (e ▸ List.mem_map_of_mem _ hmem)
      simp [hne, ih hmem h.2]

mutual
theorem descendants_inTree (routes : List RouteDef) : ∀ (item : RouteDef)
    (record n : RouteRecord), record.route = item → record.InTree routes →
    n ∈ descendants item record → n.InTree routes
  | .mk _ _ _ children, record, n, hroute, hrec, hn => by
    simp only [descendants] at hn
    refine descendantsEach_inTree routes children record n ?_ hrec hn
    intro c hc
    rw [hroute]
    exact hc
theorem descendantsEach_inTree (routes : List RouteDef) : ∀ (children : List RouteDef)
    (parent n : RouteRecord), (∀ c ∈ children, c ∈ parent.route.children) →
    parent.InTree routes → n ∈ descendantsEach children parent → n.InTree routes
  | [], _, _, _, _, hn => by simp [descendantsEach] at hn
  | item :: rest, parent, n, hsub, hpar, hn => by
    simp only [descendantsEach, List.mem_append, List.mem_cons] at hn
    have hitem : (RouteRecord.child item parent).InTree routes :=
      ⟨hsub item (List.mem_cons_self _ _), hpar⟩
    rcases hn with (rfl | hbelow) | hrest
    · exact hitem
    · exact descendants_inTree routes item (RouteRecord.child item parent) n rfl hitem hbelow
    · exact descendantsEach_inTree routes rest parent n
        (fun c hc => hsub c (List.mem_cons_of_mem _ hc)) hpar hrest
end

/-- Every node listed by `treeNodes` is a node of the tree. -/
theorem inTree_of_mem_treeNodes (routes : List RouteDef) (n : RouteRecord)
    (h : n ∈ treeNodes routes) : n.InTree routes := by
  suffices key : ∀ (ds : List RouteDef), (∀ d ∈ ds, d ∈ routes) → n ∈ treeNodes ds →
      n.InTree routes from key routes (fun _ hd => hd) h
  intro ds
  induction ds with
  | nil => intro _ hn; simp [treeNodes] at hn
  | cons d ds ih =>
    intro hsub hn
    simp only [treeNodes, List.mem_append, List.mem_cons] at hn
    have hd : (RouteRecord.root d).InTree routes := hsub d (List.mem_cons_self _ _)
    rcases hn with (rfl | hbelow) | hrest
    · exact hd
    · exact descendants_inTree routes d (RouteRecord.root d) n rfl hd hbelow
    · exact ih (fun c hc => hsub c (List.mem_cons_of_mem _ hc)) hrest

theorem mem_foldl_register (nodes : List RouteRecord) (map : RoutesMap)
    (kv : String × RouteRecord)
    (h : kv ∈ nodes.foldl (fun m n => setProp m n.fullPath n) map) :
    kv ∈ map ∨ (kv.2 ∈ nodes ∧ kv.1 = kv.2.fullPath) := by
  induction nodes generalizing map with
  | nil => exact Or.inl h
  | cons n ns ih =>
    rcases ih _ h with h1 | h1
    · have hset : ∀ (mp : RoutesMap), kv ∈ setProp mp n.fullPath n →
          kv ∈ mp ∨ kv = (n.fullPath, n) := by
        intro mp
        induction mp with
        | nil => intro hkv; simpa [setProp] using hkv
        | cons e rest ihm =>
          obtain ⟨k', v'⟩ := e
          intro hkv
          unfold setProp at hkv
          split at hkv
          · next hk =>
            rcases List.mem_cons.1 hkv with rfl | hkv
            · right; rw [hk]
            · left; exact List.mem_cons_of_mem _ hkv
          · rcases List.mem_cons.1 hkv with rfl | hkv
            · left; exact List.mem_cons_self _ _
            · rcases ihm hkv with h2 | h2
              · left; exact List.mem_cons_of_mem _ h2
              · right; exact h2
      rcases hset map h1 with h2 | h2
      · exact Or.inl h2
      · right
        subst h2
        exact ⟨List.mem_cons_self _ _, rfl⟩
    · exact Or.inr ⟨List.mem_cons_of_mem _ h1.1, h1.2⟩

/-- Every entry of the table built by `loadRoutes` is a node of the tree, stored under
its full path. -/
theorem loadRoutes_entry (routes : List RouteDef) (key : String) (n : RouteRecord)
    (h : (key, n) ∈ loadRoutes routes) : n.InTree routes ∧ key = n.fullPath := by
  rw [loadRoutes_eq_foldl] at h
  rcases mem_foldl_register _ _ _ h with h1 | h1
  · simp at h1
  · exact ⟨inTree_of_mem_treeNodes routes n h1.1, h1.2⟩

end QuickRouter

namespace QuickRouter

theorem descendants_eq (item : RouteDef) (record : RouteRecord) :
    descendants item record = descendantsEach item.children record := by
  cases item
  rfl

theorem child_mem_descendantsEach (children : List RouteDef) (parent : RouteRecord)
    (d : RouteDef) (hd : d ∈ children) :
    RouteRecord.child d parent ∈ descendantsEach children parent := by
  induction children with
  | nil => simp at hd
  | cons item rest ih =>
    simp only [descendantsEach, List.mem_append, List.mem_cons]
    rcases List.mem_cons.1 hd with rfl | hrest
    · exact Or.inl (Or.inl rfl)
    · exact Or.inr (ih hrest)

mutual
theorem child_mem_descendants : ∀ (item : RouteDef) (record p : RouteRecord) (d : RouteDef),
    p ∈ descendants item record → d ∈ p.route.children →
    RouteRecord.child d p ∈ descendants item record
  | .mk _ _ _ children, record, p, d, hp, hd => by
    simp only [descendants] at hp ⊢
    exact child_mem_descendantsEach_of_mem children record p d hp hd
theorem child_mem_descendantsEach_of_mem : ∀ (children : List RouteDef)
    (parent p : RouteRecord) (d : RouteDef),
    p ∈ descendantsEach children parent → d ∈ p.route.children →
    RouteRecord.child d p ∈ descendantsEach children parent
  | [], _, _, _, hp, _ => by simp [descendantsEach] at hp
  | item :: rest, parent, p, d, hp, hd => by
    simp only [descendantsEach, List.mem_append, List.mem_cons] at hp ⊢
    rcases hp with (rfl | hbelow) | hrest
    · refine Or.inl (Or.inr ?_)
      rw [descendants_eq]
      exact child_mem_descendantsEach item.children _ d hd
    · exact Or.inl (Or.inr (child_mem_descendants item _ p d hbelow hd))
    · exact Or.inr (child_mem_descendantsEach_of_mem rest parent p d hrest hd)
end

theorem child_mem_treeNodes (routes : List RouteDef) (p : RouteRecord) (d : RouteDef)
    (hp : p ∈ treeNodes routes) (hd : d ∈ p.route.children) :
    RouteRecord.child d p ∈ treeNodes routes := by
  induction routes with
  | nil => simp [treeNodes] at hp
  | cons d0 ds ih =>
    simp only [treeNodes, List.mem_append, List.mem_cons] at hp ⊢
    rcases hp with (rfl | hbelow) | hrest
    · refine Or.inl (Or.inr ?_)
      rw [descendants_eq]
      exact child_mem_descendantsEach d0.children _ d hd
    · exact Or.inl (Or.inr (child_mem_descendants d0 _ p d hbelow hd))
    · exact Or.inr (ih hrest)

theorem root_mem_treeNodes (routes : List RouteDef) (d : RouteDef) (hd : d ∈ routes) :
    RouteRecord.root d ∈ treeNodes routes := by
  induction routes with
  | nil => simp at hd
  | cons d0 ds ih =>
    simp only [treeNodes, List.mem_append, List.mem_cons]
    rcases List.mem_cons.1 hd with rfl | hrest
    · exact Or.inl (Or.inl rfl)
    · exact Or.inr (ih hrest)

/-- The list `treeNodes` holds exactly the nodes of the tree. -/
theorem mem_treeNodes_iff (routes : List RouteDef) (n : RouteRecord) :
    n ∈ treeNodes routes ↔ n.InTree routes := by
  constructor
  · exact inTree_of_mem_treeNodes routes n
  · intro h
    induction n with
    | root d => exact root_mem_treeNodes routes d h
    | child d p ih => exact child_mem_treeNodes routes p d (ih h.2) h.1

end QuickRouter

namespace QuickRouter

theorem constructor_eq (m : Matcher) (options : Options) (window : Window)
    (hmode : options.mode ≠ "hash") :
    QuickRouter.constructor m options window =
      .ok (createRoute m (initial options
        (if window.location.pathname = "" then "/" else window.location.pathname))) := by
  simp [QuickRouter.constructor, getPath, hmode, initial]

theorem matchesOf_append (m : Matcher) (path : String) (ks₁ ks₂ : List String) :
    matchesOf m path (ks₁ ++ ks₂) = matchesOf m path ks₁ ++ matchesOf m path ks₂ := by
  simp [matchesOf]

theorem matchesOf_eq_nil (m : Matcher) (path : String) (keys : List String)
    (h : ∀ q ∈ keys, q ≠ "" → m q path = none) : matchesOf m path keys = [] := by
  unfold matchesOf
  rw [List.filterMap_eq_nil_iff]
  intro k hk
  by_cases hk0 : k = ""
  · simp [hk0]
  · simp [hk0, h k hk hk0]

theorem mem_matchesOf (m : Matcher) (path : String) (keys : List String)
    (x : String × MatchResult) :
    x ∈ matchesOf m path keys ↔ x.1 ∈ keys ∧ x.1 ≠ "" ∧ m x.1 path = some x.2 := by
  obtain ⟨k, r⟩ := x
  unfold matchesOf
  rw [List.mem_filterMap]
  constructor
  · rintro ⟨q, hq, hf⟩
    by_cases hq0 : q = ""
    · simp [hq0] at hf
    · cases hm : m q path with
      | none => simp [hq0, hm] at hf
      | some r' =>
        simp only [hq0, if_false, hm, Option.map_some', Option.some.injEq, Prod.mk.injEq] at hf
        obtain ⟨rfl, rfl⟩ := hf
        exact ⟨hq, hq0, hm⟩
  · rintro ⟨hk, hk0, hm⟩
    exact ⟨k, hk, by simp [hk0, hm]⟩

/-- The loop of `createRoute` ends with the route of the last key that matches. -/
theorem createRoute_of_last_match (m : Matcher) (s : QuickRouter) (pre post : List String)
    (p : String) (r : MatchResult) (hkeys : objectKeys s.routesMap = pre ++ p :: post)
    (hp : p ≠ "") (hm : m p s.path = some r)
    (hpost : ∀ q ∈ post, q ≠ "" → m q s.path = none) :
    createRoute m s = { s with route := some (routeOf s.routesMap p r) } := by
  rw [createRoute_eq, hkeys, matchesOf_append]
  have hcons : matchesOf m s.path (p :: post) = [(p, r)] := by
    have h1 : matchesOf m s.path (p :: post) =
        matchesOf m s.path [p] ++ matchesOf m s.path post := matchesOf_append m s.path [p] post
    rw [h1, matchesOf_eq_nil m s.path post hpost]
    simp [matchesOf, hp, hm]
  rw [hcons, List.getLast?_concat]

/-- With no matching key the loop of `createRoute` changes nothing. -/
theorem createRoute_of_no_match (m : Matcher) (s : QuickRouter)
    (h : ∀ q ∈ objectKeys s.routesMap, q ≠ "" → m q s.path = none) : createRoute m s = s := by
  rw [createRoute_eq, matchesOf_eq_nil m s.path _ h]
  rfl

/-- With exactly one matching pattern the loop of `createRoute` ends with its route. -/
theorem createRoute_of_unique_match (m : Matcher) (s : QuickRouter) (p : String)
    (r : MatchResult) (hmem : p ∈ objectKeys s.routesMap) (hp : p ≠ "")
    (hm : m p s.path = some r)
    (huniq : ∀ q ∈ objectKeys s.routesMap, q ≠ "" → q ≠ p → m q s.path = none) :
    createRoute m s = { s with route := some (routeOf s.routesMap p r) } := by
  rw [createRoute_eq]
  have hall : ∀ x ∈ matchesOf m s.path (objectKeys s.routesMap), x = (p, r) := by
    intro x hx
    obtain ⟨hx1, hx2, hx3⟩ := (mem_matchesOf m s.path _ x).1 hx
    have hxp : x.1 = p := by
      by_contra hne
      rw [huniq x.1 hx1 hx2 hne] at hx3
      exact Option.noConfusion hx3
    obtain ⟨k, r'⟩ := x
    simp only at hxp hx3
    subst hxp
    rw [hm] at hx3
    simp only [Option.some.injEq] at hx3
    rw [hx3]
  have hin : (p, r) ∈ matchesOf m s.path (objectKeys s.routesMap) :=
    (mem_matchesOf m s.path _ (p, r)).2 ⟨hmem, hp, hm⟩
  have hne : matchesOf m s.path (objectKeys s.routesMap) ≠ [] := List.ne_nil_of_mem hin
  rw [List.getLast?_eq_getLast _ hne, hall _ (List.getLast_mem hne)]

end QuickRouter

/-! ## Claims: route resolution -/

namespace QuickRouter

/-- C1, as stated, fails: with `/about` declared before `/:page`, both patterns match
the path `/about`, the earliest one in table order is `/about`, and `createRoute` ends
with `realPath`, params and matched chain of `/:page`. -/
theorem createRoute_first_match_refuted :
    precedenceRouter.routesMap.map Prod.fst = ["/about", "/:page"] ∧
    (matchesOf pathMatch precedenceRouter.path (objectKeys precedenceRouter.routesMap)).map
        Prod.fst = ["/about", "/:page"] ∧
    (createRoute pathMatch precedenceRouter).route.map Route.realPath = some "/:page" ∧
    (createRoute pathMatch precedenceRouter).route.map Route.realPath ≠ some "/about" ∧
    (createRoute pathMatch precedenceRouter).route.map Route.params =
        some [("page", "about")] ∧
    (createRoute pathMatch precedenceRouter).route.map Route.matched =
        some [RouteRecord.root (.mk "/:page" none (some "Page") [])] :=
  ⟨by decide, by decide, by decide, by decide, by decide, rfl⟩

/-- C1, amended: last match wins.  When `p` is the last non-empty pattern, in the order
of `Object.keys` over the table, that matches the current path, `createRoute` visits
every key and leaves the route made from `p`: the match result of `p` with
`realPath = p` and the chain collected from the record stored under `p`; nothing
else of the router changes.  When no key is an array index, the order of
`Object.keys` is the insertion order of the table. -/
theorem createRoute_last_match_wins (m : Matcher) (s : QuickRouter) (pre post : List String)
    (p : String) (r : MatchResult) (hkeys : objectKeys s.routesMap = pre ++ p :: post)
    (hp : p ≠ "") (hm : m p s.path = some r)
    (hpost : ∀ q ∈ post, q ≠ "" → m q s.path = none) :
    createRoute m s =
      { s with
        route := some
          { path := r.path
            index := r.index
            params := r.params
            realPath := p
            matched := _collectMatcted (getProp s.routesMap p) } } ∧
    ((∀ kv ∈ s.routesMap, arrayIndex? kv.1 = none) →
      objectKeys s.routesMap = s.routesMap.map Prod.fst) :=
  ⟨createRoute_of_last_match m s pre post p r hkeys hp hm hpost,
    objectKeys_eq_creation_order s.routesMap⟩

/-- C1, amended, at the router for `/about` then `/:page` and the path `/about`. -/
theorem createRoute_last_match_wins_witness :
    objectKeys precedenceRouter.routesMap = ["/about"] ++ "/:page" :: [] ∧
    pathMatch "/:page" precedenceRouter.path = some ⟨"/about", 0, [("page", "about")]⟩ ∧
    (createRoute pathMatch precedenceRouter =
      { precedenceRouter with
        route := some
          { path := "/about"
            index := 0
            params := [("page", "about")]
            realPath := "/:page"
            matched := _collectMatcted (getProp precedenceRouter.routesMap "/:page") } } ∧
    ((∀ kv ∈ precedenceRouter.routesMap, arrayIndex? kv.1 = none) →
      objectKeys precedenceRouter.routesMap = precedenceRouter.routesMap.map Prod.fst)) :=
  ⟨by decide, by decide,
    createRoute_last_match_wins pathMatch precedenceRouter ["/about"] [] "/:page"
      ⟨"/about", 0, [("page", "about")]⟩ (by decide) (by decide) (by decide)
      (by intro q hq; simp at hq)⟩

/-- C4: when the current path matches exactly one non-empty pattern `p` of the table,
`createRoute` sets `realPath` to `p` and `matched` to the chain collected from the
record stored under `p`: the chain ends with that record, starts with a record
without parent, and each of its elements is the parent of the next one. -/
theorem createRoute_unique_match (m : Matcher) (s : QuickRouter) (p : String)
    (r : MatchResult) (hmem : p ∈ objectKeys s.routesMap) (hp : p ≠ "")
    (hm : m p s.path = some r)
    (huniq : ∀ q ∈ objectKeys s.routesMap, q ≠ "" → q ≠ p → m q s.path = none) :
    ∃ (route : Route) (record : RouteRecord),
      (createRoute m s).route = some route ∧
      route.realPath = p ∧
      getProp (createRoute m s).routesMap p = some record ∧
      route.matched = _collectMatcted (some record) ∧
      route.matched.getLast? = some record ∧
      (∀ first ∈ route.matched.head?, first.parent = none) ∧
      List.Chain' ParentLink route.matched := by
  obtain ⟨record, hrec⟩ :=
    getProp_isSome_of_mem s.routesMap p ((mem_objectKeys s.routesMap p).1 hmem)
  refine ⟨routeOf s.routesMap p r, record, ?_, rfl, ?_, ?_, ?_, ?_, ?_⟩
  · rw [createRoute_of_unique_match m s p r hmem hp hm huniq]
  · rw [createRoute_of_unique_match m s p r hmem hp hm huniq]
    exact hrec
  · simp [routeOf, hrec]
  · simp [routeOf, hrec, collectMatcted_some, RouteRecord.ancestors_getLast?]
  · intro first hfirst
    simp only [routeOf, hrec, collectMatcted_some, RouteRecord.ancestors_head?,
      Option.mem_def, Option.some.injEq] at hfirst
    subst hfirst
    rfl
  · simp only [routeOf, hrec, collectMatcted_some]
    exact RouteRecord.ancestors_chain record

/-- C4 at the example router and the path `/about/detail/42`, which only the pattern
`/about/detail/:id` matches. -/
theorem createRoute_unique_match_witness :
    "/about/detail/:id" ∈ objectKeys detailRouter.routesMap ∧
    pathMatch "/about/detail/:id" detailRouter.path =
      some ⟨"/about/detail/42", 0, [("id", "42")]⟩ ∧
    (∀ q ∈ objectKeys detailRouter.routesMap, q ≠ "" → q ≠ "/about/detail/:id" →
      pathMatch q detailRouter.path = none) ∧
    ∃ (route : Route) (record : RouteRecord),
      (createRoute pathMatch detailRouter).route = some route ∧
      route.realPath = "/about/detail/:id" ∧
      getProp (createRoute pathMatch detailRouter).routesMap "/about/detail/:id" =
        some record ∧
      route.matched = _collectMatcted (some record) ∧
      route.matched.getLast? = some record ∧
      (∀ first ∈ route.matched.head?, first.parent = none) ∧
      List.Chain' ParentLink route.matched :=
  ⟨by decide, by decide, by decide,
    createRoute_unique_match pathMatch detailRouter "/about/detail/:id"
      ⟨"/about/detail/42", 0, [("id", "42")]⟩ (by decide) (by decide) (by decide)
      (by decide)⟩

/-- C7: when the current path matches no non-empty pattern of the table,
`createRoute` returns the router it was given: route, depth, table, path and options
are all unchanged. -/
theorem createRoute_no_match (m : Matcher) (s : QuickRouter)
    (h : ∀ q ∈ objectKeys s.routesMap, q ≠ "" → m q s.path = none) :
    createRoute m s = s ∧
    (createRoute m s).route = s.route ∧
    (createRoute m s).depth = s.depth ∧
    (createRoute m s).routesMap = s.routesMap := by
  rw [createRoute_of_no_match m s h]
  exact ⟨rfl, rfl, rfl, rfl⟩

end QuickRouter

namespace QuickRouter

/-- C7 at the example router holding the route of `/` while its path is `/nowhere`. -/
theorem createRoute_no_match_witness :
    (∀ q ∈ objectKeys strayRouter.routesMap, q ≠ "" → pathMatch q strayRouter.path = none) ∧
    strayRouter.route.map Route.realPath = some "/" ∧
    (createRoute pathMatch strayRouter = strayRouter ∧
      (createRoute pathMatch strayRouter).route = strayRouter.route ∧
      (createRoute pathMatch strayRouter).depth = strayRouter.depth ∧
      (createRoute pathMatch strayRouter).routesMap = strayRouter.routesMap) :=
  ⟨by decide, by decide, createRoute_no_match pathMatch strayRouter (by decide)⟩

/-! ## Claims: the example resolution -/

theorem splitSlash_ne_nil (cs : List Char) : splitSlash cs ≠ [] := by
  induction cs with
  | nil => simp [splitSlash]
  | cons c cs ih =>
    unfold splitSlash
    split
    · simp
    · split <;> simp

theorem splitSlash_of_no_slash (cs : List Char) (h : ∀ c ∈ cs, c ≠ '/') :
    splitSlash cs = [cs] := by
  induction cs with
  | nil => rfl
  | cons c cs ih =>
    have hc : c ≠ '/' := h c (List.mem_cons_self _ _)
    have hcs := ih fun x hx => h x (List.mem_cons_of_mem _ hx)
    simp [splitSlash, hc, hcs]

theorem splitSlash_about_detail (v : List Char) (h : ∀ c ∈ v, c ≠ '/') :
    splitSlash ("/about/detail/".data ++ v) = [[], "about".data, "detail".data, v] := by
  have hv := splitSlash_of_no_slash v h
  simp [splitSlash, hv]

theorem not_slash_of_not_delimiter (v : List Char) (h : ∀ c ∈ v, isDelimiter c = false) :
    ∀ c ∈ v, c ≠ '/' := by
  intro c hc hslash
  have := h c hc
  simp [isDelimiter, hslash] at this

theorem pathMatch_detail (v : String) (hv : v ≠ "")
    (hseg : ∀ c ∈ v.data, isDelimiter c = false) :
    pathMatch "/about/detail/:id" ("/about/detail/" ++ v) =
      some ⟨"/about/detail/" ++ v, 0, [("id", v)]⟩ := by
  have hdata : v.data ≠ [] := fun h => hv (String.ext h)
  have hall : (v.data.all fun c => !isDelimiter c) = true := by
    rw [List.all_eq_true]
    intro c hc
    simp [hseg c hc]
  have hsplit : splitSlash "/about/detail/:id".data =
      [[], "about".data, "detail".data, ":id".data] := by decide
  unfold pathMatch
  rw [String.data_append, splitSlash_about_detail v.data
    (not_slash_of_not_delimiter v.data hseg), hsplit]
  simp [matchSegments, hdata, hall]

theorem pathMatch_about (v : String) (hseg : ∀ c ∈ v.data, isDelimiter c = false) :
    pathMatch "/about" ("/about/detail/" ++ v) = none := by
  have hsplit : splitSlash "/about".data = [[], "about".data] := by decide
  unfold pathMatch
  rw [String.data_append, splitSlash_about_detail v.data
    (not_slash_of_not_delimiter v.data hseg), hsplit]
  simp [matchSegments]

theorem pathMatch_home (v : String) (hseg : ∀ c ∈ v.data, isDelimiter c = false) :
    pathMatch "/" ("/about/detail/" ++ v) = none := by
  have hsplit : splitSlash "/".data = [[], []] := by decide
  unfold pathMatch
  rw [String.data_append, splitSlash_about_detail v.data
    (not_slash_of_not_delimiter v.data hseg), hsplit]
  simp [matchSegments]

theorem about_detail_ne_empty (v : String) : "/about/detail/" ++ v ≠ "" := by
  intro h
  have hlen := congrArg String.length h
  simp only [String.length_append] at hlen
  have h14 : "/about/detail/".length = 14 := by decide
  have h0 : "".length = 0 := by decide
  omega

/-- C2: for the tree of `/about` with child `detail/:id`, alone or after `/` as in the
example, and for every value `v` of one non-empty path segment, a router constructed
at the path `/about/detail/` followed by `v` holds the route with `realPath`
`/about/detail/:id`, the matched chain of the about record then the detail record,
and the single parameter `id` with value `v`. -/
theorem resolve_about_detail (routes : List RouteDef) (base v : String)
    (hroutes : routes = [aboutDef] ∨ routes = exampleRoutes) (hv : v ≠ "")
    (hseg : ∀ c ∈ v.data, isDelimiter c = false) :
    ∃ s : QuickRouter,
      QuickRouter.constructor pathMatch { mode := "history", base := base, routes := routes }
          (windowAt ("/about/detail/" ++ v)) = .ok s ∧
      s.route = some
        { path := "/about/detail/" ++ v
          index := 0
          params := [("id", v)]
          realPath := "/about/detail/:id"
          matched := [aboutRecord, detailRecord] } ∧
      s.route.map (fun route => route.matched.length) = some 2 ∧
      getProp s.routesMap "/about" = some aboutRecord ∧
      getProp s.routesMap "/about/detail/:id" = some detailRecord := by
  rw [constructor_eq _ _ _ (show ("history" : String) ≠ "hash" by decide)]
  simp only [windowAt, about_detail_ne_empty v, if_false]
  refine ⟨_, rfl, ?_⟩
  rcases hroutes with rfl | rfl
  · rw [createRoute_of_last_match pathMatch _ ["/about"] [] "/about/detail/:id"
      ⟨"/about/detail/" ++ v, 0, [("id", v)]⟩
      (show objectKeys (loadRoutes [aboutDef]) = _ by decide) (by decide)
      (pathMatch_detail v hv hseg) (by intro q hq; simp at hq)]
    exact ⟨rfl, rfl, rfl, rfl⟩
  · rw [createRoute_of_last_match pathMatch _ ["/", "/about"] [] "/about/detail/:id"
      ⟨"/about/detail/" ++ v, 0, [("id", v)]⟩
      (show objectKeys (loadRoutes exampleRoutes) = _ by decide) (by decide)
      (pathMatch_detail v hv hseg) (by intro q hq; simp at hq)]
    exact ⟨rfl, rfl, rfl, rfl⟩

/-- C2 at the value `42`: the path `/about/detail/42` of the spec. -/
theorem resolve_about_detail_witness :
    ("42" : String) ≠ "" ∧ (∀ c ∈ ("42" : String).data, isDelimiter c = false) ∧
    ∃ s : QuickRouter,
      QuickRouter.constructor pathMatch
          { mode := "history", base := "", routes := exampleRoutes }
          (windowAt ("/about/detail/" ++ "42")) = .ok s ∧
      s.route = some
        { path := "/about/detail/" ++ "42"
          index := 0
          params := [("id", "42")]
          realPath := "/about/detail/:id"
          matched := [aboutRecord, detailRecord] } ∧
      s.route.map (fun route => route.matched.length) = some 2 ∧
      getProp s.routesMap "/about" = some aboutRecord ∧
      getProp s.routesMap "/about/detail/:id" = some detailRecord :=
  ⟨by decide, by decide,
    resolve_about_detail exampleRoutes "" "42" (Or.inr rfl) (by decide) (by decide)⟩

end QuickRouter

/-! ## Claims: the route table builder and the matched chain -/

namespace QuickRouter

/-- C3, as stated, fails: two top-level definitions with the same path `/a` are two
nodes of the tree, and the table built by `loadRoutes` has a single entry, which holds
the second definition; the first one is stored nowhere. -/
theorem loadRoutes_one_entry_per_node_refuted :
    countNodesEach collidingRoutes = 2 ∧
    (loadRoutes collidingRoutes).length = 1 ∧
    (RouteRecord.root (.mk "/a" none (some "First") [])).fullPath = "/a" ∧
    getProp (loadRoutes collidingRoutes) "/a" =
      some (RouteRecord.root (.mk "/a" none (some "Second") [])) ∧
    getProp (loadRoutes collidingRoutes) "/a" ≠
      some (RouteRecord.root (.mk "/a" none (some "First") [])) := by
  refine ⟨by decide, by decide, by decide, rfl, ?_⟩
  intro h
  have h2 : getProp (loadRoutes collidingRoutes) "/a" =
      some (RouteRecord.root (.mk "/a" none (some "Second") [])) := rfl
  rw [h2] at h
  simp only [Option.some.injEq, RouteRecord.root.injEq, RouteDef.mk.injEq] at h
  exact absurd h.2.2.1 (by decide)

/-- C3, amended: for every route tree whose nodes have pairwise distinct full paths,
the table built by `loadRoutes` has exactly one entry per node of the tree, in
depth-first order: every node is stored under its full path (the path segments of its
ancestors from the top-level definition down to itself, joined by `/`), every entry
is a node under its full path, and there are as many entries as nodes. -/
theorem loadRoutes_one_entry_per_node (routes : List RouteDef)
    (hdistinct : ((treeNodes routes).map RouteRecord.fullPath).Nodup) :
    loadRoutes routes = (treeNodes routes).map (fun n => (n.fullPath, n)) ∧
    (loadRoutes routes).length = countNodesEach routes ∧
    (∀ n : RouteRecord, n.InTree routes →
      getProp (loadRoutes routes) n.fullPath = some n) ∧
    (∀ (key : String) (n : RouteRecord), (key, n) ∈ loadRoutes routes →
      n.InTree routes ∧ key = n.fullPath) ∧
    (∀ d : RouteDef, (RouteRecord.root d).fullPath = d.path) ∧
    (∀ (d : RouteDef) (p : RouteRecord),
      (RouteRecord.child d p).fullPath = p.fullPath ++ "/" ++ d.path) := by
  have htable : loadRoutes routes = (treeNodes routes).map (fun n => (n.fullPath, n)) := by
    rw [loadRoutes_eq_foldl, foldl_register_of_nodup _ _ (by simpa using hdistinct)]
    rfl
  refine ⟨htable, ?_, ?_, loadRoutes_entry routes, RouteRecord.fullPath_root,
    RouteRecord.fullPath_child⟩
  · rw [htable, List.length_map, treeNodes_length]
  · intro n hn
    rw [htable]
    exact getProp_map_fullPath (treeNodes routes) n ((mem_treeNodes_iff routes n).2 hn)
      hdistinct

/-- C3, amended, at the example tree: three nodes under `/`, `/about` and
`/about/detail/:id`. -/
theorem loadRoutes_one_entry_per_node_witness :
    ((treeNodes exampleRoutes).map RouteRecord.fullPath).Nodup ∧
    (treeNodes exampleRoutes).map RouteRecord.fullPath =
      ["/", "/about", "/about/detail/:id"] ∧
    (loadRoutes exampleRoutes = (treeNodes exampleRoutes).map (fun n => (n.fullPath, n)) ∧
      (loadRoutes exampleRoutes).length = countNodesEach exampleRoutes ∧
      (∀ n : RouteRecord, n.InTree exampleRoutes →
        getProp (loadRoutes exampleRoutes) n.fullPath = some n) ∧
      (∀ (key : String) (n : RouteRecord), (key, n) ∈ loadRoutes exampleRoutes →
        n.InTree exampleRoutes ∧ key = n.fullPath) ∧
      (∀ d : RouteDef, (RouteRecord.root d).fullPath = d.path) ∧
      (∀ (d : RouteDef) (p : RouteRecord),
        (RouteRecord.child d p).fullPath = p.fullPath ++ "/" ++ d.path)) :=
  ⟨by decide, by decide, loadRoutes_one_entry_per_node exampleRoutes (by decide)⟩

/-- C5: for every node `n` of a route tree, and so for every record of the table
built by `loadRoutes`, `_collectMatcted(n)` is the ancestor chain of `n`, root first:
it is not empty, its first element is the record of the top-level definition above
`n`, which is one of the routes and has no parent, its last element is `n`, each
element after the first has the element before it as its parent, and its length is
the nesting level of `n` plus one. -/
theorem collectMatcted_ancestor_chain (routes : List RouteDef) (n : RouteRecord)
    (hnode : n.InTree routes ∨ ∃ key, (key, n) ∈ loadRoutes routes) :
    _collectMatcted (some n) = n.ancestors ∧
    _collectMatcted (some n) ≠ [] ∧
    (_collectMatcted (some n)).head? = some (RouteRecord.root n.top) ∧
    n.top ∈ routes ∧
    (RouteRecord.root n.top).parent = none ∧
    (_collectMatcted (some n)).getLast? = some n ∧
    List.Chain' ParentLink (_collectMatcted (some n)) ∧
    (_collectMatcted (some n)).length = n.level + 1 := by
  have hin : n.InTree routes := by
    rcases hnode with h | ⟨key, h⟩
    · exact h
    · exact (loadRoutes_entry routes key n h).1
  rw [collectMatcted_some]
  exact ⟨rfl, n.ancestors_ne_nil, n.ancestors_head?,
    RouteRecord.top_mem_of_inTree routes n hin, rfl, n.ancestors_getLast?,
    n.ancestors_chain, n.ancestors_length⟩

/-- C5 at the detail record of the example tree: the chain is the about record, then
the detail record. -/
theorem collectMatcted_ancestor_chain_witness :
    detailRecord.InTree exampleRoutes ∧
    _collectMatcted (some detailRecord) = [aboutRecord, detailRecord] ∧
    (_collectMatcted (some detailRecord) = detailRecord.ancestors ∧
      _collectMatcted (some detailRecord) ≠ [] ∧
      (_collectMatcted (some detailRecord)).head? = some (RouteRecord.root detailRecord.top) ∧
      detailRecord.top ∈ exampleRoutes ∧
      (RouteRecord.root detailRecord.top).parent = none ∧
      (_collectMatcted (some detailRecord)).getLast? = some detailRecord ∧
      List.Chain' ParentLink (_collectMatcted (some detailRecord)) ∧
      (_collectMatcted (some detailRecord)).length = detailRecord.level + 1) :=
  have hin : detailRecord.InTree exampleRoutes :=
    ⟨List.mem_cons_self _ _, List.mem_cons_of_mem _ (List.mem_cons_self _ _)⟩
  ⟨hin, rfl, collectMatcted_ancestor_chain exampleRoutes detailRecord (Or.inl hin)⟩

end QuickRouter

/-! ## Claims: navigation events and view placeholders -/

namespace QuickRouter

theorem createRoute_depth (m : Matcher) (s : QuickRouter) : (createRoute m s).depth = s.depth := by
  rw [createRoute_eq]
  split <;> rfl

theorem createRoute_path (m : Matcher) (s : QuickRouter) : (createRoute m s).path = s.path := by
  rw [createRoute_eq]
  split <;> rfl

theorem createRoute_routesMap (m : Matcher) (s : QuickRouter) :
    (createRoute m s).routesMap = s.routesMap := by
  rw [createRoute_eq]
  split <;> rfl

theorem routerView_of_component (s : QuickRouter) (route : Route) (comp : RouteRecord)
    (c : Component) (hr : s.route = some route) (hcomp : route.matched[s.depth]? = some comp)
    (hc : comp.component = some c) :
    routerView s = .ok (some c, { s with depth := s.depth + 1 }) := by
  simp [routerView, hr, hcomp, hc]

theorem routerView_of_no_component (s : QuickRouter) (route : Route)
    (hr : s.route = some route)
    (hnone : (route.matched[s.depth]?).bind RouteRecord.component = none) :
    routerView s = .ok (none, s) := by
  cases hcomp : route.matched[s.depth]? with
  | none => simp [routerView, hr, hcomp]
  | some comp =>
    rw [hcomp] at hnone
    simp only [Option.some_bind] at hnone
    simp [routerView, hr, hcomp, hnone]

/-- A pass of `k` renders from any depth, when every matched record has a component. -/
theorem renderViews_from (route : Route)
    (hall : ∀ record ∈ route.matched, ∃ c, record.component = some c) :
    ∀ (k : Nat) (s : QuickRouter), s.route = some route →
      renderViews k s =
        .ok (((route.matched.drop s.depth).take k).map RouteRecord.component ++
            List.replicate (k - (route.matched.length - s.depth)) none,
          { s with depth := s.depth + min k (route.matched.length - s.depth) }) := by
  intro k
  induction k with
  | zero => intro s _; simp [renderViews]
  | succ k ih =>
    intro s hr
    cases hcomp : route.matched[s.depth]? with
    | none =>
      have hlen : route.matched.length ≤ s.depth := by
        rcases Nat.lt_or_ge s.depth route.matched.length with h | h
        · rw [List.getElem?_eq_getElem h] at hcomp
          exact Option.noConfusion hcomp
        · exact h
      have hview := routerView_of_no_component s route hr (by rw [hcomp]; rfl)
      have hdrop : route.matched.drop s.depth = [] := List.drop_eq_nil_of_le hlen
      have hsub : route.matched.length - s.depth = 0 := by omega
      have ih' := ih s hr
      rw [hdrop, hsub] at ih'
      simp only [renderViews, hview, ih', hdrop, hsub]
      simp [List.replicate_succ]
    | some comp =>
      obtain ⟨c, hc⟩ := hall comp (List.getElem?_mem hcomp)
      have hlt : s.depth < route.matched.length := by
        rcases Nat.lt_or_ge s.depth route.matched.length with h | h
        · exact h
        · rw [List.getElem?_eq_none h] at hcomp
          exact Option.noConfusion hcomp
      have hview := routerView_of_component s route comp c hr hcomp hc
      have hdrop : route.matched.drop s.depth = comp :: route.matched.drop (s.depth + 1) := by
        rw [List.getElem?_eq_getElem hlt] at hcomp
        simp only [Option.some.injEq] at hcomp
        rw [← hcomp]
        exact List.drop_eq_getElem_cons hlt
      have ih' := ih { s with depth := s.depth + 1 } hr
      simp only [renderViews, hview, ih', hdrop, List.take_succ_cons, List.map_cons,
        List.cons_append, hc]
      have h1 : k + 1 - (route.matched.length - s.depth) =
          k - (route.matched.length - (s.depth + 1)) := by omega
      have h2 : s.depth + 1 + min k (route.matched.length - (s.depth + 1)) =
          s.depth + min (k + 1) (route.matched.length - s.depth) := by omega
      rw [h1, h2]

end QuickRouter

namespace QuickRouter

/-- C6, the code at the failing input: `handleRoutingEvent` never changes the router's
path.  The example router constructed at `/` and then notified of a navigation to
`/about` (where `getPath` would return `/about`) keeps the path `/` and the route
of `/`, while resolving `/about` would give the route of `/about`. -/
theorem handleRoutingEvent_keeps_path :
    (∀ (m : Matcher) (s : QuickRouter), (handleRoutingEvent m s).path = s.path) ∧
    QuickRouter.constructor pathMatch (exampleOptions "") (windowAt "/") = .ok homeResolved ∧
    getPath homeResolved.options (windowAt "/about") = .ok "/about" ∧
    (handleRoutingEvent pathMatch homeResolved).path = "/" ∧
    (handleRoutingEvent pathMatch homeResolved).route.map Route.realPath = some "/" ∧
    (createRoute pathMatch { homeResolved with depth := 0, path := "/about" }).route.map
        Route.realPath = some "/about" :=
  ⟨fun m s => createRoute_path m { s with depth := 0 }, rfl, rfl, by decide, by decide,
    by decide⟩

/-- C8: one render of the view placeholder by a router that holds a route with matched
chain `m`, at depth `d`.  If `m[d]` exists and carries a component, the placeholder
renders that component and the router afterwards differs only by its depth, `d + 1`;
if `d` is past the end of `m` or `m[d]` carries no component, it renders nothing and
the router is unchanged. -/
theorem routerView_render (s : QuickRouter) (route : Route) (hr : s.route = some route) :
    (∀ (comp : RouteRecord) (c : Component), route.matched[s.depth]? = some comp →
      comp.component = some c →
      routerView s = .ok (some c, { s with depth := s.depth + 1 })) ∧
    ((route.matched[s.depth]? = none ∨
        ∃ comp, route.matched[s.depth]? = some comp ∧ comp.component = none) →
      routerView s = .ok (none, s)) := by
  refine ⟨fun comp c hcomp hc => routerView_of_component s route comp c hr hcomp hc, ?_⟩
  rintro (hnone | ⟨comp, hcomp, hc⟩)
  · exact routerView_of_no_component s route hr (by rw [hnone]; rfl)
  · exact routerView_of_no_component s route hr (by rw [hcomp]; exact hc)

/-- C8 at the example router for `/about/detail/42`: at depth 0 the placeholder
renders the about component and the depth becomes 1; at depth 2 it renders nothing. -/
theorem routerView_render_witness :
    detailResolved.route = some detailRoute ∧
    routerView detailResolved = .ok (some "About", { detailResolved with depth := 1 }) ∧
    detailRendered.route = some detailRoute ∧
    routerView detailRendered = .ok (none, detailRendered) :=
  ⟨rfl, (routerView_render detailResolved detailRoute rfl).1 aboutRecord "About" rfl rfl,
    rfl, (routerView_render detailRendered detailRoute rfl).2 (Or.inl rfl)⟩

/-- C9: for a router at depth 0 whose matched chain has `n` records that all carry a
component, a pass of `k` placeholder renders gives the components of `matched[0]`,
`matched[1]`, ... up to `matched[min(k,n)-1]`, in that order, then nothing for each
of the remaining `k - n` placeholders, and ends at depth `min(k,n)`. -/
theorem renderViews_pass (s : QuickRouter) (route : Route) (k : Nat) (hd : s.depth = 0)
    (hr : s.route = some route)
    (hall : ∀ record ∈ route.matched, ∃ c, record.component = some c) :
    renderViews k s =
      .ok ((route.matched.take k).map RouteRecord.component ++
          List.replicate (k - route.matched.length) none,
        { s with depth := min k route.matched.length }) := by
  have h := renderViews_from route hall k s hr
  rw [hd] at h
  simpa using h

/-- C9 at the example router for `/about/detail/42`: of three placeholders the first
renders the about component, the second the detail component, the third nothing. -/
theorem renderViews_pass_witness :
    QuickRouter.constructor pathMatch (exampleOptions "") (windowAt "/about/detail/42") =
      .ok detailResolved ∧
    detailResolved.depth = 0 ∧
    detailResolved.route = some detailRoute ∧
    (∀ record ∈ detailRoute.matched, ∃ c, record.component = some c) ∧
    renderViews 3 detailResolved =
      .ok ([some "About", some "Detail", none], { detailResolved with depth := 2 }) :=
  have hall : ∀ record ∈ detailRoute.matched, ∃ c, record.component = some c := by
    intro record hrec
    simp only [detailRoute, List.mem_cons, List.mem_singleton, List.not_mem_nil, or_false] at hrec
    rcases hrec with rfl | rfl
    · exact ⟨"About", rfl⟩
    · exact ⟨"Detail", rfl⟩
  ⟨rfl, rfl, rfl, hall, renderViews_pass detailResolved detailRoute 3 rfl rfl hall⟩

/-- C10: whatever the depth was, after `handleRoutingEvent` the depth is 0, and the
next placeholder render of a router that holds a route renders the component of
`matched[0]` (nothing when `matched[0]` is absent or has no component). -/
theorem handleRoutingEvent_resets_depth (m : Matcher) (s : QuickRouter) :
    (handleRoutingEvent m s).depth = 0 ∧
    ∀ route, (handleRoutingEvent m s).route = some route →
      ∃ s', routerView (handleRoutingEvent m s) =
        .ok ((route.matched[0]?).bind RouteRecord.component, s') := by
  have hdepth : (handleRoutingEvent m s).depth = 0 := createRoute_depth m { s with depth := 0 }
  refine ⟨hdepth, ?_⟩
  intro route hr
  cases hview : (route.matched[0]?).bind RouteRecord.component with
  | none =>
    exact ⟨_, routerView_of_no_component _ route hr (by rw [hdepth]; exact hview)⟩
  | some c =>
    cases hcomp : route.matched[0]? with
    | none => simp [hcomp] at hview
    | some comp =>
      rw [hcomp] at hview
      exact ⟨_, routerView_of_component _ route comp c hr (by rw [hdepth]; exact hcomp) hview⟩

/-- C10 at the example router for `/about/detail/42` after two renders: the event
brings the depth from 2 back to 0 and the next render gives the about component. -/
theorem handleRoutingEvent_resets_depth_witness :
    detailRendered.depth = 2 ∧
    (handleRoutingEvent pathMatch detailRendered).depth = 0 ∧
    (handleRoutingEvent pathMatch detailRendered).route = some detailRoute ∧
    ∃ s', routerView (handleRoutingEvent pathMatch detailRendered) =
      .ok (some "About", s') :=
  ⟨rfl, (handleRoutingEvent_resets_depth pathMatch detailRendered).1, rfl,
    (handleRoutingEvent_resets_depth pathMatch detailRendered).2 detailRoute rfl⟩

end QuickRouter

/-! ## Claims: the route as a whole and the depth invariant -/

namespace QuickRouter

/-- When some non-empty key matches, the loop of `createRoute` ends with the route of
one matching key, whatever the route was before. -/
theorem createRoute_of_some_match (m : Matcher) (s : QuickRouter)
    (h : ∃ q ∈ objectKeys s.routesMap, q ≠ "" ∧ (m q s.path).isSome) :
    ∃ (p : String) (r : MatchResult), p ∈ objectKeys s.routesMap ∧ p ≠ "" ∧
      m p s.path = some r ∧
      createRoute m s = { s with route := some (routeOf s.routesMap p r) } := by
  obtain ⟨q, hq, hq0, hsome⟩ := h
  obtain ⟨rq, hrq⟩ := Option.isSome_iff_exists.1 hsome
  have hin : (q, rq) ∈ matchesOf m s.path (objectKeys s.routesMap) :=
    (mem_matchesOf m s.path _ (q, rq)).2 ⟨hq, hq0, hrq⟩
  have hne : matchesOf m s.path (objectKeys s.routesMap) ≠ [] := List.ne_nil_of_mem hin
  have hlast := List.getLast_mem hne
  obtain ⟨hp1, hp2, hp3⟩ := (mem_matchesOf m s.path _ _).1 hlast
  refine ⟨_, _, hp1, hp2, hp3, ?_⟩
  rw [createRoute_eq, List.getLast?_eq_getLast _ hne]

theorem createRoute_route_isSome (m : Matcher) (s : QuickRouter) (r : Route)
    (hr : s.route = some r) : ∃ r', (createRoute m s).route = some r' := by
  rw [createRoute_eq]
  split
  · exact ⟨r, hr⟩
  · exact ⟨_, rfl⟩

end QuickRouter

namespace QuickRouter

/-- C16: when at least one non-empty pattern of the table matches the current path,
the route after `createRoute` comes from one matching pattern `p` as a whole: it is
the match result of `p` with `realPath = p` and `matched` the chain collected from the
record stored under `p`, whose last element is that record; and it does not depend on
the route the router held before. -/
theorem createRoute_replaces_route (m : Matcher) (s : QuickRouter)
    (h : ∃ q ∈ objectKeys s.routesMap, q ≠ "" ∧ (m q s.path).isSome) :
    (∃ (p : String) (r : MatchResult) (record : RouteRecord),
      p ∈ objectKeys s.routesMap ∧ p ≠ "" ∧ m p s.path = some r ∧
      getProp s.routesMap p = some record ∧
      (createRoute m s).route = some
        { path := r.path
          index := r.index
          params := r.params
          realPath := p
          matched := _collectMatcted (some record) } ∧
      (_collectMatcted (some record)).getLast? = some record) ∧
    ∀ previous : Option Route,
      (createRoute m { s with route := previous }).route = (createRoute m s).route := by
  constructor
  · obtain ⟨p, r, hp, hp0, hm, hroute⟩ := createRoute_of_some_match m s h
    obtain ⟨record, hrec⟩ :=
      getProp_isSome_of_mem s.routesMap p ((mem_objectKeys s.routesMap p).1 hp)
    refine ⟨p, r, record, hp, hp0, hm, hrec, ?_, ?_⟩
    · rw [hroute]
      simp [routeOf, hrec]
    · rw [collectMatcted_some]
      exact RouteRecord.ancestors_getLast? record
  · intro previous
    have h1 := createRoute_eq m s
    have h2 := createRoute_eq m { s with route := previous }
    simp only at h2
    rw [h1, h2]
    cases hlast : (matchesOf m s.path (objectKeys s.routesMap)).getLast? with
    | none =>
      obtain ⟨q, hq, hq0, hsome⟩ := h
      obtain ⟨rq, hrq⟩ := Option.isSome_iff_exists.1 hsome
      have hin : (q, rq) ∈ matchesOf m s.path (objectKeys s.routesMap) :=
        (mem_matchesOf m s.path _ (q, rq)).2 ⟨hq, hq0, hrq⟩
      rw [List.getLast?_eq_getLast _ (List.ne_nil_of_mem hin)] at hlast
      exact Option.noConfusion hlast
    | some pr => rfl

/-- C16 at the router for `/about` then `/:page`, which holds the route of `/about`
when `createRoute` runs again: both patterns match, and the route is that of `/:page`
with its own params and chain. -/
theorem createRoute_replaces_route_witness :
    (∃ q ∈ objectKeys precedenceRouter.routesMap, q ≠ "" ∧
      (pathMatch q precedenceRouter.path).isSome) ∧
    (createRoute pathMatch precedenceRouter).route.map Route.realPath = some "/:page" ∧
    ((∃ (p : String) (r : MatchResult) (record : RouteRecord),
      p ∈ objectKeys precedenceRouter.routesMap ∧ p ≠ "" ∧
      pathMatch p precedenceRouter.path = some r ∧
      getProp precedenceRouter.routesMap p = some record ∧
      (createRoute pathMatch precedenceRouter).route = some
        { path := r.path
          index := r.index
          params := r.params
          realPath := p
          matched := _collectMatcted (some record) } ∧
      (_collectMatcted (some record)).getLast? = some record) ∧
    ∀ previous : Option Route,
      (createRoute pathMatch { precedenceRouter with route := previous }).route =
        (createRoute pathMatch precedenceRouter).route) :=
  have h : ∃ q ∈ objectKeys precedenceRouter.routesMap, q ≠ "" ∧
      (pathMatch q precedenceRouter.path).isSome :=
    ⟨"/about", by decide, by decide, by decide⟩
  ⟨h, by decide, createRoute_replaces_route pathMatch precedenceRouter h⟩

theorem routerView_depthInvariant (s s' : QuickRouter) (c : Option Component)
    (hinv : DepthInvariant s) (hview : routerView s = .ok (c, s')) : DepthInvariant s' := by
  obtain ⟨r, hr, hle, hbelow⟩ := hinv
  cases hcomp : (r.matched[s.depth]?).bind RouteRecord.component with
  | none =>
    rw [routerView_of_no_component s r hr hcomp] at hview
    simp only [Except.ok.injEq, Prod.mk.injEq] at hview
    rw [← hview.2]
    exact ⟨r, hr, hle, hbelow⟩
  | some c' =>
    cases hrec : r.matched[s.depth]? with
    | none => simp [hrec] at hcomp
    | some record =>
      rw [hrec] at hcomp
      simp only [Option.some_bind] at hcomp
      rw [routerView_of_component s r record c' hr hrec hcomp] at hview
      simp only [Except.ok.injEq, Prod.mk.injEq] at hview
      rw [← hview.2]
      have hlt : s.depth < r.matched.length := by
        rcases Nat.lt_or_ge s.depth r.matched.length with h | h
        · exact h
        · rw [List.getElem?_eq_none h] at hrec
          exact Option.noConfusion hrec
      refine ⟨r, hr, hlt, ?_⟩
      intro i hi
      rcases Nat.lt_or_ge i s.depth with h | h
      · exact hbelow i h
      · have hi' : i = s.depth := by
          have : i < s.depth + 1 := hi
          omega
        subst hi'
        exact ⟨record, c', hrec, hcomp⟩

theorem routerView_ok_of_route (s : QuickRouter) (r : Route) (hr : s.route = some r) :
    ∃ c s', routerView s = .ok (c, s') := by
  cases hcomp : (r.matched[s.depth]?).bind RouteRecord.component with
  | none => exact ⟨_, _, routerView_of_no_component s r hr hcomp⟩
  | some c' =>
    cases hrec : r.matched[s.depth]? with
    | none => simp [hrec] at hcomp
    | some record =>
      rw [hrec] at hcomp
      exact ⟨_, _, routerView_of_component s r record c' hr hrec hcomp⟩

theorem handleRoutingEvent_depthInvariant (m : Matcher) (s : QuickRouter)
    (hinv : DepthInvariant s) : DepthInvariant (handleRoutingEvent m s) := by
  obtain ⟨r, hr, _, _⟩ := hinv
  obtain ⟨r', hr'⟩ := createRoute_route_isSome m { s with depth := 0 } r hr
  have hdepth : (handleRoutingEvent m s).depth = 0 := createRoute_depth m { s with depth := 0 }
  refine ⟨r', hr', ?_, ?_⟩
  · rw [hdepth]
    exact Nat.zero_le _
  · intro i hi
    rw [hdepth] at hi
    exact absurd hi (Nat.not_lt_zero i)

theorem run_depthInvariant (m : Matcher) (steps : List Step) :
    ∀ s : QuickRouter, DepthInvariant s → ∃ s', run m steps s = .ok s' ∧ DepthInvariant s' := by
  induction steps with
  | nil => intro s hinv; exact ⟨s, rfl, hinv⟩
  | cons a rest ih =>
    intro s hinv
    cases a with
    | render =>
      obtain ⟨r, hr, _, _⟩ := id hinv
      obtain ⟨c, s1, hview⟩ := routerView_ok_of_route s r hr
      obtain ⟨s', hrun, hinv'⟩ := ih s1 (routerView_depthInvariant s s1 c hinv hview)
      exact ⟨s', by simp [run, step, hview, hrun], hinv'⟩
    | navigate =>
      obtain ⟨s', hrun, hinv'⟩ := ih _ (handleRoutingEvent_depthInvariant m s hinv)
      exact ⟨s', by simp [run, step, hrun], hinv'⟩

/-- C17: from a constructed router whose initial path matched some pattern, every
sequence of placeholder renders and navigation events runs without error and ends in
a state whose depth is at most the length of `route.matched`, with a component on
every record of the chain below the depth. -/
theorem depth_within_matched (m : Matcher) (options : Options) (window : Window)
    (s0 : QuickRouter) (steps : List Step)
    (hnew : QuickRouter.constructor m options window = .ok s0)
    (hmatch : ∃ q ∈ objectKeys s0.routesMap, q ≠ "" ∧ (m q s0.path).isSome) :
    ∃ (s : QuickRouter) (r : Route), run m steps s0 = .ok s ∧ s.route = some r ∧
      0 ≤ s.depth ∧ s.depth ≤ r.matched.length ∧
      ∀ i, i < s.depth →
        ∃ record c, r.matched[i]? = some record ∧ record.component = some c := by
  have hinit : ∃ s1 : QuickRouter, s0 = createRoute m s1 ∧ s1.depth = 0 := by
    unfold QuickRouter.constructor at hnew
    split at hnew
    · exact Except.noConfusion hnew
    · simp only [Except.ok.injEq] at hnew
      exact ⟨_, hnew.symm, rfl⟩
  obtain ⟨s1, hs0, hd1⟩ := hinit
  have hmatch1 : ∃ q ∈ objectKeys s1.routesMap, q ≠ "" ∧ (m q s1.path).isSome := by
    rw [hs0, createRoute_routesMap, createRoute_path] at hmatch
    exact hmatch
  obtain ⟨p, r, _, _, _, hroute⟩ := createRoute_of_some_match m s1 hmatch1
  have hinv0 : DepthInvariant s0 := by
    rw [hs0, hroute]
    refine ⟨routeOf s1.routesMap p r, rfl, ?_, ?_⟩
    · simp [hd1]
    · intro i hi
      simp only [hd1] at hi
      exact absurd hi (Nat.not_lt_zero i)
  obtain ⟨s, hrun, r', hr', hle, hbelow⟩ := run_depthInvariant m steps s0 hinv0
  exact ⟨s, r', hrun, hr', Nat.zero_le _, hle, hbelow⟩

/-- C17 at the example router constructed at `/about/detail/42`, after three renders,
a navigation event and one more render: the depth is 1, within the chain of two. -/
theorem depth_within_matched_witness :
    QuickRouter.constructor pathMatch (exampleOptions "") (windowAt "/about/detail/42") =
      .ok detailResolved ∧
    (∃ q ∈ objectKeys detailResolved.routesMap, q ≠ "" ∧
      (pathMatch q detailResolved.path).isSome) ∧
    run pathMatch [.render, .render, .render, .navigate, .render] detailResolved =
      .ok { detailResolved with depth := 1 } ∧
    ∃ (s : QuickRouter) (r : Route),
      run pathMatch [.render, .render, .render, .navigate, .render] detailResolved = .ok s ∧
      s.route = some r ∧ 0 ≤ s.depth ∧ s.depth ≤ r.matched.length ∧
      ∀ i, i < s.depth →
        ∃ record c, r.matched[i]? = some record ∧ record.component = some c :=
  have h : ∃ q ∈ objectKeys detailResolved.routesMap, q ≠ "" ∧
      (pathMatch q detailResolved.path).isSome :=
    ⟨"/about/detail/:id", by decide, by decide, by decide⟩
  ⟨rfl, h, rfl,
    depth_within_matched pathMatch (exampleOptions "") (windowAt "/about/detail/42")
      detailResolved [.render, .render, .render, .navigate, .render] rfl h⟩

end QuickRouter

/-! ## Claims: rendering without a route, render passes, colliding paths, hash mode -/

namespace QuickRouter

/-- C12, the code at the failing input: a router constructed with `routes = []` holds
the empty route object, and so does the example router constructed at a path no
pattern matches; the render of a view placeholder then throws, for `route.matched`
is undefined, instead of rendering nothing. -/
theorem routerView_throws_without_route :
    (∀ (m : Matcher) (base pathname : String),
      (match QuickRouter.constructor m { mode := "history", base := base, routes := [] }
          (windowAt pathname) with
        | .ok s => routerView s
        | .error e => .error e) = .error (.typeError "route.matched is undefined")) ∧
    (QuickRouter.constructor pathMatch emptyOptions (windowAt "/")).map
        (fun s => (s.route.isSome, s.depth)) = .ok (false, 0) ∧
    (match QuickRouter.constructor pathMatch (exampleOptions "") (windowAt "/nowhere") with
      | .ok s => routerView s
      | .error e => .error e) = .error (.typeError "route.matched is undefined") := by
  refine ⟨?_, rfl, rfl⟩
  intro m base pathname
  rw [constructor_eq _ _ _ (show ("history" : String) ≠ "hash" by decide)]
  rfl

theorem renderViews_depth (r : Route) : ∀ (k : Nat) (s s1 : QuickRouter)
    (out : List (Option Component)), s.route = some r → renderViews k s = .ok (out, s1) →
    s1.route = some r ∧ s1.depth = s.depth + (out.filter Option.isSome).length := by
  intro k
  induction k with
  | zero =>
    intro s s1 out hr hpass
    simp only [renderViews, Except.ok.injEq, Prod.mk.injEq] at hpass
    obtain ⟨rfl, rfl⟩ := hpass
    exact ⟨hr, rfl⟩
  | succ k ih =>
    intro s s1 out hr hpass
    cases hcomp : (r.matched[s.depth]?).bind RouteRecord.component with
    | none =>
      have hview := routerView_of_no_component s r hr hcomp
      simp only [renderViews, hview] at hpass
      cases hrest : renderViews k s with
      | error e => simp [hrest] at hpass
      | ok res =>
        obtain ⟨cs, s2⟩ := res
        simp only [hrest, Except.ok.injEq, Prod.mk.injEq] at hpass
        obtain ⟨rfl, rfl⟩ := hpass
        obtain ⟨h1, h2⟩ := ih s s2 cs hr hrest
        exact ⟨h1, by simpa using h2⟩
    | some c =>
      cases hrec : r.matched[s.depth]? with
      | none => simp [hrec] at hcomp
      | some record =>
        rw [hrec] at hcomp
        simp only [Option.some_bind] at hcomp
        have hview := routerView_of_component s r record c hr hrec hcomp
        simp only [renderViews, hview] at hpass
        cases hrest : renderViews k { s with depth := s.depth + 1 } with
        | error e => simp [hrest] at hpass
        | ok res =>
          obtain ⟨cs, s2⟩ := res
          simp only [hrest, Except.ok.injEq, Prod.mk.injEq] at hpass
          obtain ⟨rfl, rfl⟩ := hpass
          obtain ⟨h1, h2⟩ := ih { s with depth := s.depth + 1 } s2 cs hr hrest
          refine ⟨h1, ?_⟩
          simp only [List.filter_cons, Option.isSome_some, if_true, List.length_cons] at h2 ⊢
          omega

/-- C13, as stated, fails: after a pass of two renders by the example router for
`/about/detail/42`, which gives the about and the detail component, a second pass of
two renders with no navigation event in between gives nothing twice; its first
placeholder is not rendered against `matched[0]`, the about record. -/
theorem renderViews_second_pass_refuted :
    renderViews 2 detailResolved = .ok ([some "About", some "Detail"], detailRendered) ∧
    renderViews 2 detailRendered = .ok ([none, none], detailRendered) ∧
    routerView detailRendered = .ok (none, detailRendered) ∧
    detailRendered.route = some detailRoute ∧
    (detailRoute.matched[0]?).bind RouteRecord.component = some "About" :=
  ⟨rfl, rfl, rfl, rfl, rfl⟩

/-- C13, amended: the depth is reset to 0 by `handleRoutingEvent` only.  At the end of
a pass of renders started at depth 0 the router holds the same route and its depth
is the number of components the pass rendered; the first placeholder of the next pass
is rendered against the record of `matched` at that depth, and against `matched[0]`
only after a navigation event. -/
theorem renderViews_next_pass (s s1 : QuickRouter) (r : Route) (k : Nat)
    (out : List (Option Component)) (hr : s.route = some r) (hd : s.depth = 0)
    (hpass : renderViews k s = .ok (out, s1)) :
    s1.route = some r ∧
    s1.depth = (out.filter Option.isSome).length ∧
    (∃ s2, routerView s1 =
      .ok ((r.matched[(out.filter Option.isSome).length]?).bind RouteRecord.component, s2)) ∧
    ∀ m : Matcher, (handleRoutingEvent m s1).depth = 0 := by
  obtain ⟨h1, h2⟩ := renderViews_depth r k s s1 out hr hpass
  rw [hd, Nat.zero_add] at h2
  refine ⟨h1, h2, ?_, fun m => createRoute_depth m { s1 with depth := 0 }⟩
  rw [← h2]
  cases hcomp : (r.matched[s1.depth]?).bind RouteRecord.component with
  | none => exact ⟨_, routerView_of_no_component s1 r h1 hcomp⟩
  | some c =>
    cases hrec : r.matched[s1.depth]? with
    | none => simp [hrec] at hcomp
    | some record =>
      rw [hrec] at hcomp
      exact ⟨_, routerView_of_component s1 r record c h1 hrec hcomp⟩

/-- C13, amended, at the example router for `/about/detail/42` and a pass of one
render: the next placeholder is rendered against `matched[1]`, the detail record. -/
theorem renderViews_next_pass_witness :
    detailResolved.route = some detailRoute ∧ detailResolved.depth = 0 ∧
    renderViews 1 detailResolved = .ok ([some "About"], { detailResolved with depth := 1 }) ∧
    routerView { detailResolved with depth := 1 } =
      .ok (some "Detail", { detailResolved with depth := 2 }) ∧
    (({ detailResolved with depth := 1 } : QuickRouter).route = some detailRoute ∧
      ({ detailResolved with depth := 1 } : QuickRouter).depth =
        (([some "About"] : List (Option Component)).filter Option.isSome).length ∧
      (∃ s2, routerView { detailResolved with depth := 1 } =
        .ok ((detailRoute.matched[(([some "About"] : List (Option Component)).filter
          Option.isSome).length]?).bind RouteRecord.component, s2)) ∧
      ∀ m : Matcher, (handleRoutingEvent m { detailResolved with depth := 1 }).depth = 0) :=
  ⟨rfl, rfl, rfl, rfl,
    renderViews_next_pass detailResolved { detailResolved with depth := 1 } detailRoute 1
      [some "About"] rfl rfl rfl⟩

end QuickRouter

theorem getProp_setProp (map : RoutesMap) (k k' : String) (v : RouteRecord) :
    getProp (setProp map k v) k' = if k = k' then some v else getProp map k' := by
  induction map with
  | nil => simp [setProp, getProp]
  | cons e rest ih =>
    obtain ⟨k0, v0⟩ := e
    unfold setProp
    by_cases h0 : k0 = k
    · subst h0
      by_cases h1 : k0 = k' <;> simp [getProp, h1]
    · by_cases h1 : k0 = k'
      · subst h1
        simp [getProp, h0, Ne.symm h0]
      · simp [getProp, h0, h1, ih]

namespace QuickRouter

theorem getProp_foldl_register_of_not_mem (nodes : List RouteRecord) (map : RoutesMap)
    (key : String) (h : ∀ r ∈ nodes, r.fullPath ≠ key) :
    getProp (nodes.foldl (fun m n => setProp m n.fullPath n) map) key = getProp map key := by
  induction nodes generalizing map with
  | nil => rfl
  | cons n ns ih =>
    simp only [List.foldl_cons]
    rw [ih _ fun r hr => h r (List.mem_cons_of_mem _ hr), getProp_setProp]
    simp [h n (List.mem_cons_self _ _)]

/-- The table maps a full path to the last node registered under it. -/
theorem getProp_loadRoutes_of_last (routes : List RouteDef) (pre post : List RouteRecord)
    (n : RouteRecord) (hnodes : treeNodes routes = pre ++ n :: post)
    (hlast : ∀ r ∈ post, r.fullPath ≠ n.fullPath) :
    getProp (loadRoutes routes) n.fullPath = some n := by
  rw [loadRoutes_eq_foldl, hnodes, List.foldl_append, List.foldl_cons,
    getProp_foldl_register_of_not_mem post _ _ hlast, getProp_setProp]
  simp

/-- C14: when two nodes `a` and `b` of the route tree have the same full path, `b`
coming after `a` in the traversal order of the builder (each top-level definition,
then its descendants depth-first, before the next top-level definition) and no node
after `b` having that path, the table built by `loadRoutes`, which is a total
function and raises nothing, maps the path to `b`. -/
theorem loadRoutes_later_overwrites (routes : List RouteDef)
    (before between after : List RouteRecord) (a b : RouteRecord)
    (hnodes : treeNodes routes = before ++ a :: (between ++ b :: after))
    (hsame : a.fullPath = b.fullPath)
    (hlast : ∀ r ∈ after, r.fullPath ≠ b.fullPath) :
    getProp (loadRoutes routes) a.fullPath = some b ∧
    getProp (loadRoutes routes) b.fullPath = some b := by
  have hnodes' : treeNodes routes = (before ++ a :: between) ++ b :: after := by
    rw [hnodes]
    simp
  have hb := getProp_loadRoutes_of_last routes _ after b hnodes' hlast
  exact ⟨hsame ▸ hb, hb⟩

/-- C14 at a tree where the child `b` of `/a` and a later top-level `/a/b` have the
same full path: the table holds the top-level definition under `/a/b`. -/
theorem loadRoutes_later_overwrites_witness :
    treeNodes overwriteRoutes =
      [RouteRecord.root (.mk "/a" none (some "A") [.mk "b" none (some "Child") []])] ++
        RouteRecord.child (.mk "b" none (some "Child") [])
            (RouteRecord.root (.mk "/a" none (some "A") [.mk "b" none (some "Child") []])) ::
          ([] ++ RouteRecord.root (.mk "/a/b" none (some "Top") []) :: []) ∧
    (loadRoutes overwriteRoutes).map Prod.fst = ["/a", "/a/b"] ∧
    (getProp (loadRoutes overwriteRoutes)
        (RouteRecord.child (.mk "b" none (some "Child") [])
          (RouteRecord.root
            (.mk "/a" none (some "A") [.mk "b" none (some "Child") []]))).fullPath =
        some (RouteRecord.root (.mk "/a/b" none (some "Top") [])) ∧
      getProp (loadRoutes overwriteRoutes)
          (RouteRecord.root (.mk "/a/b" none (some "Top") [])).fullPath =
        some (RouteRecord.root (.mk "/a/b" none (some "Top") []))) :=
  ⟨rfl, by decide,
    loadRoutes_later_overwrites overwriteRoutes
      [RouteRecord.root (.mk "/a" none (some "A") [.mk "b" none (some "Child") []])] [] []
      (RouteRecord.child (.mk "b" none (some "Child") [])
        (RouteRecord.root (.mk "/a" none (some "A") [.mk "b" none (some "Child") []])))
      (RouteRecord.root (.mk "/a/b" none (some "Top") [])) rfl (by decide)
      (by intro r hr; simp at hr)⟩

/-- C15: in hash mode `getPath` throws for every window, and so does the constructor
for every matcher and every route list; in every other mode `getPath` returns the
pathname of the location. -/
theorem getPath_hash_mode (m : Matcher) (options : Options) (window : Window) :
    (options.mode = "hash" →
      (∃ e, getPath options window = .error e) ∧
      ∃ e, QuickRouter.constructor m options window = .error e) ∧
    (options.mode ≠ "hash" → getPath options window = .ok window.location.pathname) := by
  constructor
  · intro hmode
    have hget : getPath options window = .error (.typeError "window.localtion is undefined") := by
      simp [getPath, hmode]
    refine ⟨⟨_, hget⟩, ⟨JSError.typeError "window.localtion is undefined", ?_⟩⟩
    simp [QuickRouter.constructor, hget]
  · intro hmode
    simp [getPath, hmode]

/-- C15 at the example routes: in hash mode `getPath` and the constructor throw, in
history mode `getPath` returns the pathname. -/
theorem getPath_hash_mode_witness :
    hashOptions.mode = "hash" ∧ (exampleOptions "").mode ≠ "hash" ∧
    ((∃ e, getPath hashOptions (windowAt "/about") = .error e) ∧
      ∃ e, QuickRouter.constructor pathMatch hashOptions (windowAt "/about") = .error e) ∧
    getPath (exampleOptions "") (windowAt "/about") = .ok "/about" :=
  ⟨rfl, by decide, (getPath_hash_mode pathMatch hashOptions (windowAt "/about")).1 rfl,
    (getPath_hash_mode pathMatch (exampleOptions "") (windowAt "/about")).2 (by decide)⟩

/-- C11: `install` is idempotent.  A second call changes neither the plugin state nor
the framework, on which it registers nothing, whichever framework object it is given;
after a first call on a plugin not yet installed, the framework has exactly one more
global mixin and one more registration of each of `router-link` and `router-view`,
and still so after the second call. -/
theorem install_idempotent (p : PluginState) (vue : Vue) :
    install (install p vue).1 (install p vue).2 = install p vue ∧
    (install p vue).1.installed = true ∧
    (∀ other : Vue, install (install p vue).1 other = ((install p vue).1, other)) ∧
    (p.installed = false →
      (install (install p vue).1 (install p vue).2).2.mixins = vue.mixins ++ [routerMixin] ∧
      (install (install p vue).1 (install p vue).2).2.components =
        vue.components ++
          [("router-link", { functional := true }), ("router-view", { functional := true })]) := by
  cases hinst : p.installed with
  | true => simp [install, hinst]
  | false => simp [install, hinst]

/-- C11 at a framework on which nothing is registered: after two calls there is one
global mixin, one `router-link` and one `router-view`. -/
theorem install_idempotent_witness :
    freshPlugin.installed = false ∧
    (install (install freshPlugin freshVue).1 (install freshPlugin freshVue).2).2.mixins =
      [routerMixin] ∧
    (install (install freshPlugin freshVue).1
        (install freshPlugin freshVue).2).2.components.map Prod.fst =
      ["router-link", "router-view"] ∧
    (install (install freshPlugin freshVue).1 (install freshPlugin freshVue).2 =
        install freshPlugin freshVue ∧
      (install freshPlugin freshVue).1.installed = true ∧
      (∀ other : Vue,
        install (install freshPlugin freshVue).1 other =
          ((install freshPlugin freshVue).1, other)) ∧
      (freshPlugin.installed = false →
        (install (install freshPlugin freshVue).1 (install freshPlugin freshVue).2).2.mixins =
          freshVue.mixins ++ [routerMixin] ∧
        (install (install freshPlugin freshVue).1
            (install freshPlugin freshVue).2).2.components =
          freshVue.components ++
            [("router-link", { functional := true }),
              ("router-view", { functional := true })])) :=
  ⟨rfl, by decide, by decide, install_idempotent freshPlugin freshVue⟩

end QuickRouter
